import Mathlib

/-!
Verification development for the argosy asset-loader repository.

The definitions below are shallow embeddings of the Rust sources:
machine integers become `Nat` (with explicit range side conditions where
overflow matters), fallible code returns `Except`/`Option`, and stateful
code is modelled by explicit state passing.  Each definition's doc comment
names the Rust item it embeds.
-/

set_option linter.unusedVariables false
set_option linter.dupNamespace false

namespace Argosy

namespace Id

/-! ### `id/src/lib.rs` — `AssetId` hex codec

An `AssetId` is a non-zero `u64`; we represent the underlying value as a
`Nat` with explicit `0 < v` and `v < 2^64` side conditions. -/

/-- One more than `u64::MAX`. -/
def U64_SIZE : Nat := 2 ^ 64

/-- Lowercase hex digit character for a value `n < 16`, as produced by Rust's
`LowerHex` formatting (`0`-`9` then `a`-`f`). -/
def hexDigitChar (n : Nat) : Char :=
  if n < 10 then Char.ofNat (48 + n) else Char.ofNat (87 + n)

/-- Big-endian minimal base-16 digit list of `v` (so `[0]` for zero): the digit
sequence Rust's `LowerHex` formatter emits for the value before padding. -/
def hexDigits (v : Nat) : List Nat :=
  if h : v < 16 then [v]
  else hexDigits (v / 16) ++ [v % 16]
termination_by v
decreasing_by exact Nat.div_lt_self (by omega) (by omega)

/-- Embeds the human-readable branch of `impl Serialize for AssetId`
(id/src/lib.rs:24-28): `write!(cursor, "{:016x}", value)`, i.e. the lowercase
hex digits of the value left-padded with `0` to width 16. -/
def serialize_hex (v : Nat) : String :=
  let ds := hexDigits v
  String.mk ((List.replicate (16 - ds.length) 0 ++ ds).map hexDigitChar)

/-- Embeds `char::to_digit(16)`: decimal digits, then lowercase and uppercase
`a`-`f`/`A`-`F`. -/
def hexDigitValue (c : Char) : Option Nat :=
  if 48 ≤ c.toNat ∧ c.toNat ≤ 57 then some (c.toNat - 48)
  else if 97 ≤ c.toNat ∧ c.toNat ≤ 102 then some (c.toNat - 87)
  else if 65 ≤ c.toNat ∧ c.toNat ≤ 70 then some (c.toNat - 55)
  else none

/-- Error kinds of `core::num::ParseIntError` reachable from
`u64::from_str_radix`. -/
inductive ParseIntError
  | empty
  | invalidDigit
  | posOverflow
deriving DecidableEq, Repr

/-- Digit-accumulation loop of `u64::from_str_radix(s, 16)`: checked
multiply-and-add on `u64`, overflow reported as `PosOverflow`. -/
def from_str_radix_digits : List Char → Nat → Except ParseIntError Nat
  | [], acc => .ok acc
  | c :: cs, acc =>
    match hexDigitValue c with
    | none => .error .invalidDigit
    | some d =>
      if acc * 16 + d < U64_SIZE then from_str_radix_digits cs (acc * 16 + d)
      else .error .posOverflow

/-- Embeds `u64::from_str_radix(s, 16)`: empty input is `Empty`; a leading `+`
with nothing after it is `InvalidDigit`; otherwise an optional leading `+` is
stripped and the digits are accumulated (for the unsigned type `-` is not a
sign and fails as an invalid digit). -/
def u64_from_str_radix_16 (s : String) : Except ParseIntError Nat :=
  match s.data with
  | [] => .error .empty
  | c :: cs =>
    if c = '+' then
      match cs with
      | [] => .error .invalidDigit
      | _ => from_str_radix_digits cs 0
    else from_str_radix_digits (c :: cs) 0

/-- `ParseAssetIdError` (id/src/lib.rs:52-58). -/
inductive ParseAssetIdError
  | parseIntError (e : ParseIntError)
  | zeroId
deriving DecidableEq, Repr

/-- Embeds `impl FromStr for AssetId` (id/src/lib.rs:60-71):
`u64::from_str_radix(s, 16)` followed by the `NonZeroU64` check. -/
def assetId_from_str (s : String) : Except ParseAssetIdError Nat :=
  match u64_from_str_radix_16 s with
  | .error e => .error (.parseIntError e)
  | .ok value => if value = 0 then .error .zeroId else .ok value

end Id

namespace ImportFFI

/-! ### `import/src/ffi.rs` — importer plugin FFI constants and descriptor -/

/-- `pub const REQUIRE_SOURCES: i32 = 2` (import/src/ffi.rs:26). -/
def REQUIRE_SOURCES : Int := 2

/-- `pub const REQUIRE_DEPENDENCIES: i32 = 1` (import/src/ffi.rs:27). -/
def REQUIRE_DEPENDENCIES : Int := 1

/-- `pub const SUCCESS: i32 = 0` (import/src/ffi.rs:28). -/
def SUCCESS : Int := 0

/-- `pub const NOT_FOUND: i32 = -1` (import/src/ffi.rs:29). -/
def NOT_FOUND : Int := -1

/-- `pub const NOT_UTF8: i32 = -2` (import/src/ffi.rs:30). -/
def NOT_UTF8 : Int := -2

/-- `pub const BUFFER_IS_TOO_SMALL: i32 = -3` (import/src/ffi.rs:31). -/
def BUFFER_IS_TOO_SMALL : Int := -3

/-- `pub const OTHER_ERROR: i32 = -6` (import/src/ffi.rs:32). -/
def OTHER_ERROR : Int := -6

/-- The return-code constants declared by the plugin FFI
(import/src/ffi.rs:26-32), in declaration order. -/
def ffiReturnCodes : List Int :=
  [REQUIRE_SOURCES, REQUIRE_DEPENDENCIES, SUCCESS, NOT_FOUND, NOT_UTF8,
    BUFFER_IS_TOO_SMALL, OTHER_ERROR]

/-- Outcome of `Importer::import` as matched by `importer_import_ffi`
(import/src/ffi.rs:339-442).  Strings are byte lists. -/
inductive ImportResult
  | ok
  | requireSources (sources : List (List Nat))
  | requireDependencies (dependencies : List (List Nat × List Nat))
  | other (reason : List Nat)

/-- Return code produced by `importer_import_ffi` for a given import outcome,
assuming the host-supplied result buffer is large enough (the
`BUFFER_IS_TOO_SMALL` path is not taken).  A `RequireSources` error returns
`REQUIRE_SOURCES`, a `RequireDependencies` error returns
`REQUIRE_DEPENDENCIES` (import/src/ffi.rs:339-442). -/
def importer_import_return_code : ImportResult → Int
  | .ok => SUCCESS
  | .requireSources _ => REQUIRE_SOURCES
  | .requireDependencies _ => REQUIRE_DEPENDENCIES
  | .other _ => OTHER_ERROR

/-- `pub const MAX_EXTENSION_LEN: usize = 16` (import/src/ffi.rs:444). -/
def MAX_EXTENSION_LEN : Nat := 16

/-- `pub const MAX_EXTENSION_COUNT: usize = 16` (import/src/ffi.rs:445). -/
def MAX_EXTENSION_COUNT : Nat := 16

/-- `pub const MAX_FFI_NAME_LEN: usize = 64` (import/src/ffi.rs:446). -/
def MAX_FFI_NAME_LEN : Nat := 64

/-- `pub const MAX_FORMATS_COUNT: usize = 32` (import/src/ffi.rs:447). -/
def MAX_FORMATS_COUNT : Nat := 32

/-- The data an `Importer` implementation reports to `ImporterFFI::new`
(import/src/ffi.rs:466-474): name, formats, target and extensions, as byte
lists (`str::len` counts bytes; `str::contains('\0')` is byte-0 membership in
UTF-8). -/
structure ImporterDesc where
  name : List Nat
  formats : List (List Nat)
  target : List Nat
  extensions : List (List Nat)
deriving DecidableEq, Repr

/-- Conjunction of the `assert!` guards of `ImporterFFI::new`
(import/src/ffi.rs:478-528), in source order.  `ImporterFFI::new` panics iff
this is `false`. -/
def importerFFI_new_accepts (d : ImporterDesc) : Bool :=
  decide (d.name.length ≤ MAX_FFI_NAME_LEN) &&
  decide (d.formats.length ≤ MAX_FORMATS_COUNT) &&
  d.formats.all (fun f => decide (f.length ≤ MAX_FFI_NAME_LEN)) &&
  decide (d.target.length ≤ MAX_FFI_NAME_LEN) &&
  decide (d.extensions.length < MAX_EXTENSION_COUNT) &&
  d.extensions.all (fun e => decide (e.length < MAX_EXTENSION_LEN)) &&
  !d.name.isEmpty &&
  !d.formats.isEmpty &&
  !d.target.isEmpty &&
  !d.name.contains 0 &&
  d.formats.all (fun f => !f.contains 0) &&
  !d.target.contains 0 &&
  d.extensions.all (fun e => !e.contains 0)

/-- NUL-pad a byte list to width `n`, as the `[0; N]` buffer plus
`copy_from_slice` prefix writes do in `ImporterFFI::new`. -/
def nulPad (n : Nat) (bs : List Nat) : List Nat :=
  bs ++ List.replicate (n - bs.length) 0

/-- The fixed-width descriptor arrays built by `ImporterFFI::new`
(import/src/ffi.rs:530-555): each string NUL-padded into its fixed-width
buffer, unused format/extension slots all-zero. -/
structure ImporterFFIBufs where
  name : List Nat
  formats : List (List Nat)
  target : List Nat
  extensions : List (List Nat)
deriving DecidableEq, Repr

/-- Buffer construction of `ImporterFFI::new` (import/src/ffi.rs:530-555);
meaningful when `importerFFI_new_accepts` holds (otherwise the Rust code has
already panicked). -/
def importerFFI_new_bufs (d : ImporterDesc) : ImporterFFIBufs where
  name := nulPad MAX_FFI_NAME_LEN d.name
  formats := d.formats.map (nulPad MAX_FFI_NAME_LEN) ++
    List.replicate (MAX_FORMATS_COUNT - d.formats.length)
      (List.replicate MAX_FFI_NAME_LEN 0)
  target := nulPad MAX_FFI_NAME_LEN d.target
  extensions := d.extensions.map (nulPad MAX_EXTENSION_LEN) ++
    List.replicate (MAX_EXTENSION_COUNT - d.extensions.length)
      (List.replicate MAX_EXTENSION_LEN 0)

/-- The acceptance condition claimed by the spec for `ImporterFFI::new`
(written from the spec sentence, for comparison with
`importerFFI_new_accepts`): name and target non-empty, NUL-free and at most
64 bytes; at most 32 formats of at most 64 bytes each; at most 16 extensions
of at most 16 bytes each. -/
def claimed_importer_accepts (d : ImporterDesc) : Bool :=
  !d.name.isEmpty && !d.target.isEmpty &&
  !d.name.contains 0 && !d.target.contains 0 &&
  decide (d.name.length ≤ 64) && decide (d.target.length ≤ 64) &&
  decide (d.formats.length ≤ 32) &&
  d.formats.all (fun f => decide (f.length ≤ 64)) &&
  decide (d.extensions.length ≤ 16) &&
  d.extensions.all (fun e => decide (e.length ≤ 16))

end ImportFFI

namespace Loader

/-! ### `src/loader.rs` — builder, source walk, cache tasks -/

/-- `const DEFAULT_SHARDS_PER_CPU: usize = 8` (src/loader.rs:28). -/
def DEFAULT_SHARDS_PER_CPU : Nat := 8

/-- `LoaderBuilder` configuration state (src/loader.rs:38-41); the source list
is irrelevant to shard counting and omitted here. -/
structure LoaderBuilder where
  num_shards : Nat
deriving DecidableEq, Repr

/-- `LoaderBuilder::new` (src/loader.rs:51-59): `num_shards` starts at
`DEFAULT_SHARDS_PER_CPU * num_cpus::get()`; the CPU count is a parameter. -/
def LoaderBuilder.new (num_cpus : Nat) : LoaderBuilder :=
  { num_shards := DEFAULT_SHARDS_PER_CPU * num_cpus }

/-- `LoaderBuilder::set_num_shards` / `with_num_shards`
(src/loader.rs:92-107): stores the supplied value unchanged. -/
def LoaderBuilder.set_num_shards (b : LoaderBuilder) (num_shards : Nat) :
    LoaderBuilder :=
  { b with num_shards := num_shards }

/-- Shard counts of the two cache tables of a built `Loader`. -/
structure LoaderShardCounts where
  asset_shards : Nat
  path_shards : Nat
deriving DecidableEq, Repr

/-- Shard-table construction of `LoaderBuilder::build` (src/loader.rs:110-128):
both `(0..self.num_shards)` ranges, so each table has exactly `num_shards`
shards — no rounding and no cap is applied. -/
def LoaderBuilder.build (b : LoaderBuilder) : LoaderShardCounts :=
  { asset_shards := b.num_shards, path_shards := b.num_shards }

/-- Modelled from the spec: the shard count the spec describes — the
builder-supplied value rounded up to the next power of two and capped at 512
(`Rust usize::next_power_of_two` maps 0 to 1). -/
def spec_shard_count (v : Nat) : Nat :=
  min (2 ^ Nat.clog 2 v) 512

/-! #### Cache data model

Machine details abstracted: wakers are opaque tokens, the type-erased
`TypeId`/`Any` machinery becomes a `Nat` type tag together with explicit
`D` (decoded) and `V` (built asset) type parameters, and the sharded
hash tables become association lists keyed by the full key (shard
selection by `hash % shards_len` always picks the same shard for the same
key, so a single map keyed by `(type, id)` respectively `(type, path)`
models the lookup discipline). -/

/-- Waker: opaque token standing for `std::task::Waker`. -/
abbrev Waker := Nat

/-- Type tag standing for `TypeId::of::<A>()`. -/
abbrev TypeTag := Nat

/-- The type-erased shareable `Error` (src/error.rs): either a `NotFound`
value (carrying the optional path and id exactly as the Rust struct does) or
an opaque wrapped error distinguished by a token. -/
inductive Error where
  | notFound (path : Option String) (id : Option Nat)
  | sourceError (token : Nat)
  | decodeError (token : Nat)
  | buildError (token : Nat)
deriving DecidableEq, Repr

/-- `AssetData` (src/source/mod.rs:9-17): bytes plus opaque version. -/
structure AssetData where
  bytes : List Nat
  version : Nat
deriving DecidableEq, Repr

/-- `Data` (src/loader.rs:30-34): bytes, version and winning source index. -/
structure Data where
  bytes : List Nat
  version : Nat
  source : Nat
deriving DecidableEq, Repr

/-- A `Source` (src/source/mod.rs:20-40) through the loader's `AnySource`
view: `find` translates a path and asset-type name to an id, `load` fetches
bytes by id.  `update` is never called by the loader and is omitted. -/
structure Source where
  find : String → String → Option Nat
  load : Nat → Except Error (Option AssetData)

/-- `AssetState` (src/loader.rs:152-175).  The `decoded` spin-mutex cell of
`Loaded` contains `DecodedState<A> = Option<A::Decoded>`, embedded inline as
`Option D`. -/
inductive AssetState (D V : Type) where
  | unloaded (wakers : List Waker)
  | loaded (decoded : Option D) (version : Nat) (source : Nat)
      (wakers : List Waker)
  | ready (asset : V) (version : Nat) (source : Nat)
  | missing
  | error (error : Error)
deriving DecidableEq

/-- `PathState` (src/loader.rs:177-189). -/
inductive PathState where
  | unloaded (asset_wakers : List Waker) (id_wakers : List Waker)
  | loaded (id : Nat)
  | missing
deriving DecidableEq, Repr

/-- The id-keyed cache table, keyed by `(type, id)` (models the `TypeKey`
sharded map, src/loader.rs:131). -/
abbrev AssetCache (D V : Type) := List ((TypeTag × Nat) × AssetState D V)

/-- The path-keyed cache table, keyed by `(type, path)` (models the
`PathKey` sharded map, src/loader.rs:132). -/
abbrev PathCache := List ((TypeTag × String) × PathState)

/-- Map lookup (models `raw_entry_mut().from_hash(..)` finding an occupied
entry). -/
def findEntry {K S : Type} [DecidableEq K] : List (K × S) → K → Option S
  | [], _ => none
  | (k', s) :: rest, k => if k' = k then some s else findEntry rest k

/-- Map insert-or-replace (models writing through an occupied entry or
inserting into a vacant one). -/
def setEntry {K S : Type} [DecidableEq K] : List (K × S) → K → S → List (K × S)
  | [], k, s => [(k, s)]
  | (k', s') :: rest, k, s =>
    if k' = k then (k, s) :: rest else (k', s') :: setEntry rest k s

/-! #### Source walks -/

/-- Index-carrying loop of `load_asset` (src/loader.rs:569-580): query
sources in order; the first `Ok(Some(data))` wins and its index is recorded;
an `Err` aborts the walk. -/
def load_asset_from : List Source → Nat → Nat → Except Error (Option Data)
  | [], _, _ => .ok none
  | s :: rest, index, id =>
    match s.load id with
    | .error e => .error e
    | .ok (some asset) => .ok (some ⟨asset.bytes, asset.version, index⟩)
    | .ok none => load_asset_from rest (index + 1) id

/-- `load_asset` (src/loader.rs:569-580). -/
def load_asset (sources : List Source) (id : Nat) : Except Error (Option Data) :=
  load_asset_from sources 0 id

/-- Number of sources whose `load` is invoked by the `load_asset` walk
(instrumentation of the same loop: each iteration consults exactly one
source and the loop exits on `Some` or `Err`). -/
def load_asset_consulted : List Source → Nat → Nat
  | [], _ => 0
  | s :: rest, id =>
    match s.load id with
    | .error _ => 1
    | .ok (some _) => 1
    | .ok none => 1 + load_asset_consulted rest id

/-- `find_asset` (src/loader.rs:582-589): query sources in order, stop at the
first `Some(id)`; `A::name()` is passed as `name`. -/
def find_asset : List Source → String → String → Option Nat
  | [], _, _ => none
  | s :: rest, path, name =>
    match s.find path name with
    | some id => some id
    | none => find_asset rest path name

/-- Number of sources whose `find` is invoked by the `find_asset` walk. -/
def find_asset_consulted : List Source → String → String → Nat
  | [], _, _ => 0
  | s :: rest, path, name =>
    match s.find path name with
    | some _ => 1
    | none => 1 + find_asset_consulted rest path name

/-! #### Handle states and polling (src/handle.rs) -/

/-- `State` (src/handle.rs:22-44).  The shard/hasher references carried by
the Rust variants are implicit here: the caches are passed to each
operation. -/
inductive HState (V : Type) where
  | searching
  | loading
  | loaded
  | ready (asset : V)
  | error (e : Error)
  | missing
deriving DecidableEq

/-- `Handle` (src/handle.rs:48-53). -/
structure Handle (V : Type) where
  type_id : TypeTag
  id : Option Nat
  path : Option String
  state : HState V
deriving DecidableEq

/-- `PollFor` (src/handle.rs:55-60). -/
inductive PollFor
  | id
  | load
  | ready
deriving DecidableEq, Repr

/-- `waker.map(|w| wakers.push(w.clone()))`: pushes the waker if one was
supplied. -/
def pushWaker (w : Option Waker) (ws : List Waker) : List Waker :=
  match w with
  | none => ws
  | some x => ws ++ [x]

/-- Result of `Handle::poll`: the updated handle, both caches (waker
registration mutates an entry's waker list) and the returned `bool`. -/
structure PollOut (D V : Type) where
  handle : Handle V
  path_cache : PathCache
  asset_cache : AssetCache D V
  ready : Bool

/-- The id-entry lookup block shared by the `State::Loading`/`State::Loaded`
arms of the second match in `Handle::poll` (src/handle.rs:153-209).
Unreachable panics (`expect`, vacant entry) are modelled as a `false` result
with everything unchanged; no theorem below depends on those branches. -/
def Handle.poll_lookup {D V : Type} [DecidableEq V] (h : Handle V)
    (pollFor : PollFor) (waker : Option Waker) (pc : PathCache)
    (ac : AssetCache D V) : PollOut D V :=
  match h.id with
  | none => ⟨h, pc, ac, false⟩
  | some id =>
    match findEntry ac (h.type_id, id) with
    | none => ⟨h, pc, ac, false⟩
    | some (.unloaded ws) =>
      ⟨h, pc, setEntry ac (h.type_id, id) (.unloaded (pushWaker waker ws)),
        false⟩
    | some (.loaded d v s ws) =>
      if pollFor = .ready then
        ⟨{ h with state := .loaded }, pc,
          setEntry ac (h.type_id, id) (.loaded d v s (pushWaker waker ws)),
          false⟩
      else ⟨{ h with state := .loaded }, pc, ac, true⟩
    | some (.ready _ _ _) => ⟨{ h with state := .loaded }, pc, ac, true⟩
    | some .missing => ⟨{ h with state := .missing }, pc, ac, true⟩
    | some (.error e) => ⟨{ h with state := .error e }, pc, ac, true⟩

/-- Second match of `Handle::poll` (src/handle.rs:148-211), entered with a
non-`Searching` state: a `Loaded` handle polled for anything short of
`Ready` is immediately ready; `Loading`, or `Loaded` polled for `Ready`,
inspects the id-entry; terminal handle states report ready. -/
def Handle.poll_id_entry {D V : Type} [DecidableEq V] (h : Handle V)
    (pollFor : PollFor) (waker : Option Waker) (pc : PathCache)
    (ac : AssetCache D V) : PollOut D V :=
  match h.state with
  | .loaded =>
    if pollFor = .ready then h.poll_lookup pollFor waker pc ac
    else ⟨h, pc, ac, true⟩
  | .loading => h.poll_lookup pollFor waker pc ac
  | _ => ⟨h, pc, ac, true⟩

/-- `Handle::poll` (src/handle.rs:79-212). -/
def Handle.poll {D V : Type} [DecidableEq V] (h : Handle V)
    (pollFor : PollFor) (waker : Option Waker) (pc : PathCache)
    (ac : AssetCache D V) : PollOut D V :=
  match h.state with
  | .searching =>
    match h.path with
    | none => ⟨h, pc, ac, false⟩
    | some path =>
      match findEntry pc (h.type_id, path) with
      | none => ⟨h, pc, ac, false⟩
      | some (.unloaded asset_wakers id_wakers) =>
        let pst :=
          match pollFor with
          | .id | .load =>
            PathState.unloaded asset_wakers (pushWaker waker id_wakers)
          | .ready =>
            PathState.unloaded (pushWaker waker asset_wakers) id_wakers
        ⟨h, setEntry pc (h.type_id, path) pst, ac, false⟩
      | some (.loaded id) =>
        let h' := { h with id := some id, state := HState.loading }
        if pollFor = .id then ⟨h', pc, ac, true⟩
        else h'.poll_id_entry pollFor waker pc ac
      | some .missing => ⟨{ h with state := .missing }, pc, ac, true⟩
  | _ =>
    if pollFor = .id then ⟨h, pc, ac, true⟩
    else h.poll_id_entry pollFor waker pc ac

/-- `Handle::get` (src/handle.rs:333-387), with the continuations of
`poll_ready`/`AssetFuture::poll` (src/handle.rs:531-543) inlined: `get` on
`Ready` clones the asset, `missing` builds the `NotFound { path, id }`
error, `err` clones the stored error.  `none` stands for the panicking
branches. -/
def Handle.get {D V : Type} [DecidableEq V] (h : Handle V)
    (ac : AssetCache D V) : Option (Except Error V × Handle V) :=
  match h.state with
  | .searching => none
  | .loading => none
  | .loaded =>
    match h.id with
    | none => none
    | some id =>
      match findEntry ac (h.type_id, id) with
      | none => none
      | some (.unloaded _) => none
      | some (.loaded _ _ _ _) => none
      | some (.ready a _ _) => some (.ok a, h)
      | some .missing =>
        some (.error (.notFound h.path h.id), { h with state := .missing })
      | some (.error e) => some (.error e, { h with state := .error e })
  | .ready a => some (.ok a, h)
  | .missing => some (.error (.notFound h.path h.id), h)
  | .error e => some (.error e, h)

/-- `Handle::build` (src/handle.rs:223-324) run to completion in a single
thread: the decode-cell lock, build call and shard re-lock of the `Loaded`
arm execute without interference, so the entry re-read after the build sees
the state the build left (the concurrent protocol of this sequence is
modelled separately by `Argosy.BuildProtocol`).  `bf` is the
builder-applying closure (`build_fn`); `none` stands for the panicking
branches, including a `Loaded` entry whose decode cell is already empty. -/
def Handle.build {D V : Type} [DecidableEq V] (h : Handle V)
    (bf : D → Except Error V) (ac : AssetCache D V) :
    Option (Except Error V × Handle V × AssetCache D V) :=
  match h.state with
  | .searching => none
  | .loading => none
  | .loaded =>
    match h.id with
    | none => none
    | some id =>
      match findEntry ac (h.type_id, id) with
      | none => none
      | some (.unloaded _) => none
      | some (.ready a _ _) => some (.ok a, h, ac)
      | some (.loaded dec version source _) =>
        match dec with
        | none => none
        | some dval =>
          match bf dval with
          | .ok a =>
            some (.ok a, h,
              setEntry ac (h.type_id, id) (.ready a version source))
          | .error e =>
            some (.error e, h, setEntry ac (h.type_id, id) (.error e))
      | some .missing =>
        some (.error (.notFound h.path h.id), { h with state := .missing }, ac)
      | some (.error e) =>
        some (.error e, { h with state := .error e }, ac)
  | .ready a => some (.ok a, h, ac)
  | .missing => some (.error (.notFound h.path h.id), h, ac)
  | .error e => some (.error e, h, ac)

/-- `AssetHandle` (src/handle.rs:401-408): cached terminal result plus the
internal handle. -/
structure AssetHandle (V : Type) where
  result : Option (Except Error V)
  handle : Handle V

/-- `AssetHandle::new` (src/handle.rs:447-452). -/
def AssetHandle.new {V : Type} (h : Handle V) : AssetHandle V :=
  ⟨none, h⟩

/-- `AssetHandle::poll_ready` (src/handle.rs:522-547): return the cached
result if present; poll for `Ready` without a waker; when ready, run
`Handle::get` and cache its result. -/
def AssetHandle.poll_ready {D V : Type} [DecidableEq V] (ah : AssetHandle V)
    (pc : PathCache) (ac : AssetCache D V) :
    Option (Except Error V) × AssetHandle V :=
  match ah.result with
  | some r => (some r, ah)
  | none =>
    let out := Handle.poll ah.handle .ready none pc ac
    if out.ready then
      match Handle.get out.handle out.asset_cache with
      | none => (none, { ah with handle := out.handle })
      | some (r, h') => (some r, ⟨some r, h'⟩)
    else (none, { ah with handle := out.handle })

/-- `AssetFuture::poll` (src/handle.rs:558-592): like `poll_ready` but
registering the task's waker while pending. -/
def AssetFuture.poll {D V : Type} [DecidableEq V] (ah : AssetHandle V)
    (waker : Waker) (pc : PathCache) (ac : AssetCache D V) :
    Option (Except Error V) × AssetHandle V × PathCache × AssetCache D V :=
  match ah.result with
  | some r => (some r, ah, pc, ac)
  | none =>
    let out := Handle.poll ah.handle .ready (some waker) pc ac
    if out.ready then
      match Handle.get out.handle out.asset_cache with
      | none => (none, { ah with handle := out.handle }, out.path_cache,
          out.asset_cache)
      | some (r, h') => (some r, ⟨some r, h'⟩, out.path_cache,
          out.asset_cache)
    else (none, { ah with handle := out.handle }, out.path_cache,
        out.asset_cache)

/-- `AssetHandle::poll_build` (src/handle.rs:639-678): return the cached
result if present; poll for `Load` without a waker; when loaded, run
`Handle::build` with the asset's build function and cache its result. -/
def AssetHandle.poll_build {D V : Type} [DecidableEq V] (ah : AssetHandle V)
    (bf : D → Except Error V) (pc : PathCache) (ac : AssetCache D V) :
    Option (Except Error V) × AssetHandle V × AssetCache D V :=
  match ah.result with
  | some r => (some r, ah, ac)
  | none =>
    let out := Handle.poll ah.handle .load none pc ac
    if out.ready then
      match Handle.build out.handle bf out.asset_cache with
      | none => (none, { ah with handle := out.handle }, out.asset_cache)
      | some (r, h', ac') => (some r, ⟨some r, h'⟩, ac')
    else (none, { ah with handle := out.handle }, out.asset_cache)

/-! #### Loader operations (src/loader.rs) -/

/-- Result of `Loader::load_with_id`: the returned handle, the updated
id-keyed cache and whether a `load_asset_task` was spawned. -/
structure LoadWithIdOut (D V : Type) where
  handle : AssetHandle V
  asset_cache : AssetCache D V
  spawned : Bool

/-- `Loader::load_with_id` (src/loader.rs:197-296): an occupied entry yields
a handle mirroring its state and spawns nothing; a vacant entry is
registered as `Unloaded` with no wakers, a `Loading` handle is returned and
the load task is spawned. -/
def Loader.load_with_id {D V : Type} [DecidableEq V] (ac : AssetCache D V)
    (ty id : Nat) : LoadWithIdOut D V :=
  match findEntry ac (ty, id) with
  | some st =>
    let hstate : HState V :=
      match st with
      | .unloaded _ => .loading
      | .error e => .error e
      | .missing => .missing
      | .loaded _ _ _ _ => .loaded
      | .ready a _ _ => .ready a
    ⟨AssetHandle.new ⟨ty, some id, none, hstate⟩, ac, false⟩
  | none =>
    ⟨AssetHandle.new ⟨ty, some id, none, .loading⟩,
      setEntry ac (ty, id) (.unloaded []), true⟩

/-- `load_asset_task` (src/loader.rs:410-452): walk the sources, decode on
success, then store the computed state into the entry, which the single
producer discipline guarantees is still `Unloaded` (any other shape is
`unreachable!` in the code and leaves the cache unchanged here).
`A::decode`'s loader argument (used only for nested loads) is irrelevant to
the modelled claims, so `decode` is bytes to decoded value. -/
def load_asset_task {D V : Type} [DecidableEq V]
    (sources : List Source) (decode : List Nat → Except Error D)
    (ac : AssetCache D V) (ty id : Nat) : AssetCache D V :=
  let new_state : AssetState D V :=
    match load_asset sources id with
    | .error e => .error e
    | .ok none => .missing
    | .ok (some data) =>
      match decode data.bytes with
      | .error e => .error e
      | .ok decoded => .loaded (some decoded) data.version data.source []
  match findEntry ac (ty, id) with
  | some (.unloaded _) => setEntry ac (ty, id) new_state
  | _ => ac

/-- `find_asset_task` (src/loader.rs:455-567): on `None` the path entry
becomes `Missing`; on `Some(id)` the path entry becomes `Loaded { id }`, its
`asset_wakers` are drained into a local buffer and moved into the id-entry
(created `Unloaded` with them if vacant, appended if still `Unloaded`,
woken immediately if terminal), and if the id-entry was vacant the load
continues via `load_asset_task`.  Branches the code declares
`unreachable!` leave both caches unchanged. -/
def find_asset_task {D V : Type} [DecidableEq V]
    (sources : List Source) (decode : List Nat → Except Error D)
    (ty : TypeTag) (name path : String) (pc : PathCache)
    (ac : AssetCache D V) : PathCache × AssetCache D V :=
  match find_asset sources path name with
  | none =>
    match findEntry pc (ty, path) with
    | some (.unloaded _ _) => (setEntry pc (ty, path) .missing, ac)
    | _ => (pc, ac)
  | some id =>
    match findEntry pc (ty, path) with
    | some (.unloaded asset_wakers _) =>
      let moving_wakers := asset_wakers
      let pc' := setEntry pc (ty, path) (.loaded id)
      match findEntry ac (ty, id) with
      | none =>
        let ac' := setEntry ac (ty, id) (.unloaded moving_wakers)
        (pc', load_asset_task sources decode ac' ty id)
      | some (.unloaded ws) =>
        (pc', setEntry ac (ty, id) (.unloaded (ws ++ moving_wakers)))
      | some _ => (pc', ac)
    | _ => (pc, ac)

/-- Result of the path branch of `Loader::load`. -/
structure LoadPathOut (D V : Type) where
  handle : AssetHandle V
  path_cache : PathCache
  asset_cache : AssetCache D V
  spawned_find : Bool
  spawned_load : Bool

/-- Path branch of `Loader::load` (src/loader.rs:309-404): an `Unloaded`
path entry yields a `Searching` handle; a `Loaded { id }` entry re-dispatches
as `load_with_id`; `Missing` yields a pre-filled missing handle; a vacant
entry is registered `Unloaded` (both waker lists empty), a `Searching`
handle is returned and the find task is spawned. -/
def Loader.load_path {D V : Type} [DecidableEq V] (pc : PathCache)
    (ac : AssetCache D V) (ty : TypeTag) (path : String) : LoadPathOut D V :=
  match findEntry pc (ty, path) with
  | some (.unloaded _ _) =>
    ⟨AssetHandle.new ⟨ty, none, some path, .searching⟩, pc, ac, false, false⟩
  | some (.loaded id) =>
    let r := Loader.load_with_id (D := D) ac ty id
    ⟨r.handle, pc, r.asset_cache, false, r.spawned⟩
  | some .missing =>
    ⟨AssetHandle.new ⟨ty, none, some path, .missing⟩, pc, ac, false, false⟩
  | none =>
    ⟨AssetHandle.new ⟨ty, none, some path, .searching⟩,
      setEntry pc (ty, path) (.unloaded [] []), ac, true, false⟩

/-! #### `FileSource` (src/source/fs.rs) -/

/-- `FileSource` (src/source/fs.rs:15-17): `load_fn` abstracts what
`FileSource::load` reads from the filesystem under `root` — the claims
about `find` hold for every filesystem contents. -/
structure FileSource where
  load_fn : Nat → Except Error (Option AssetData)

/-- `FileSource::find` (src/source/fs.rs:21-24): returns `None` for every
path and asset-type name. -/
def FileSource.find (f : FileSource) (path asset : String) : Option Nat :=
  none

/-- The `Source` view of a `FileSource`. -/
def FileSource.toSource (f : FileSource) : Source :=
  { find := f.find, load := f.load_fn }

/-- Shard-lock operations on the two cache tables. -/
inductive LockEvent
  | acquirePath
  | releasePath
  | acquireAsset
  | releaseAsset
deriving DecidableEq, Repr

/-- The sequence of shard-lock operations `find_asset_task` performs in its
`Some(id)` branch (src/loader.rs:486-566), read off the guard lifetimes: the
path-shard guard `locked_shard` acquired at src/loader.rs:497 is *shadowed*
(not dropped) by the id-shard guard of the same name acquired at
src/loader.rs:527, so both guards live to the end of the enclosing block
(src/loader.rs:561, or the early `return` at :558) and drop in reverse
declaration order: id-shard first, then path-shard. -/
def find_asset_task_lock_trace : List LockEvent :=
  [.acquirePath, .acquireAsset, .releaseAsset, .releasePath]

/-- Locks held after processing a prefix of a lock trace:
`(path-shard held, id-shard held)`. -/
def locksHeld (evs : List LockEvent) : Bool × Bool :=
  evs.foldl
    (fun h e =>
      match e with
      | .acquirePath => (true, h.2)
      | .releasePath => (false, h.2)
      | .acquireAsset => (h.1, true)
      | .releaseAsset => (h.1, false))
    (false, false)

/-- Whether some point of the trace holds the path-shard and id-shard locks
simultaneously. -/
def holdsBothAtSomePoint (evs : List LockEvent) : Bool :=
  (List.range (evs.length + 1)).any fun k =>
    (locksHeld (evs.take k)).1 && (locksHeld (evs.take k)).2

end Loader

namespace BuildProtocol

/-! ### Concurrent decode-cell protocol of `Handle::build`
(src/handle.rs:236-304)

An interleaving model of arbitrarily many tasks concurrently executing
`Handle::build` on one id-entry that starts in `Loaded` with a full decode
cell.  The entry and the cell contents are shared state; the decode cell's
spin mutex (`cellLock`) is held from the `take`/build step until the entry
is re-read under the shard lock, exactly as the guard lifetimes at
src/handle.rs:263-267 dictate (the cell guard is dropped only after the
shard lock is re-acquired).  Shard-lock critical sections contain no
suspension points, so each is one atomic step; the build call itself runs
with the shard lock released but the cell lock held. -/

open Loader (Error)

/-- The states an id-entry can occupy during the build protocol (once
`Loaded` is reached, `Unloaded`/`Missing` are no longer possible; the code
marks them `unreachable!`). -/
inductive EntrySt (V : Type) where
  | loaded
  | ready (a : V)
  | error (e : Error)
deriving DecidableEq

/-- What a finished `Handle::build` call handed to its caller: the built (or
memoised) asset via the `get` continuation, or an error via `err`. -/
inductive BuildOutcome (V : Type) where
  | got (a : V)
  | failed (e : Error)
deriving DecidableEq

/-- Program counter of one task inside `Handle::build`:
`start` — before the first shard-lock critical section (src/handle.rs:241);
`waitCell` — saw `Loaded`, released the shard lock, about to lock the decode
cell (src/handle.rs:263);
`ranBuild opt` — holds the cell lock, performed `take()` and (if the cell
was full) the build; `opt` is `build_fn`'s return value (src/handle.rs:264);
`done r` — returned. -/
inductive Phase (V : Type) where
  | start
  | waitCell
  | ranBuild (opt : Option (Except Error V))
  | done (r : BuildOutcome V)

/-- Shared state plus every task's phase. -/
structure Sys (D V : Type) where
  entry : EntrySt V
  cell : Option D
  cellLock : Option Nat
  builds : Nat
  phases : Nat → Phase V

/-- Update one task's phase. -/
def setPhase {D V : Type} (s : Sys D V) (i : Nat) (p : Phase V) : Sys D V :=
  { s with phases := fun j => if j = i then p else s.phases j }

/-- One interleaving step of the protocol; `bf` is the deterministic
`build_fn` applied to the decoded value.  `builds` counts invocations of the
asset's build (it runs exactly when `take()` yields the content). -/
inductive Step {D V : Type} (bf : D → Except Error V) :
    Sys D V → Sys D V → Prop where
  /-- First critical section sees `Ready`: return the memoised asset
  (src/handle.rs:254-258). -/
  | startReady (s : Sys D V) (i : Nat) (a : V) :
      s.phases i = .start → s.entry = .ready a →
      Step bf s (setPhase s i (.done (.got a)))
  /-- First critical section sees `Error`: return the stored error
  (src/handle.rs:310-316). -/
  | startError (s : Sys D V) (i : Nat) (e : Error) :
      s.phases i = .start → s.entry = .error e →
      Step bf s (setPhase s i (.done (.failed e)))
  /-- First critical section sees `Loaded`: clone the cell handle, release
  the shard lock (src/handle.rs:259-261). -/
  | startLoaded (s : Sys D V) (i : Nat) :
      s.phases i = .start → s.entry = .loaded →
      Step bf s (setPhase s i .waitCell)
  /-- Acquire the cell lock, `take()` the contents, run the build if the
  cell was full (src/handle.rs:263-264); the cell lock stays held. -/
  | takeCell (s : Sys D V) (i : Nat) :
      s.phases i = .waitCell → s.cellLock = none →
      Step bf s
        { entry := s.entry, cell := none, cellLock := some i,
          builds := s.builds + (if s.cell.isSome then 1 else 0),
          phases := fun j =>
            if j = i then .ranBuild (s.cell.map bf) else s.phases j }
  /-- Re-acquire the shard lock, drop the cell lock, observe `Ready`: return
  the memoised asset (src/handle.rs:266-280). -/
  | finishReady (s : Sys D V) (i : Nat) (o : Option (Except Error V)) (a : V) :
      s.phases i = .ranBuild o → s.entry = .ready a →
      Step bf s { (setPhase s i (.done (.got a))) with cellLock := none }
  /-- Re-acquire the shard lock, drop the cell lock, observe `Error`: return
  the stored error (src/handle.rs:279). -/
  | finishError (s : Sys D V) (i : Nat) (o : Option (Except Error V))
      (e : Error) :
      s.phases i = .ranBuild o → s.entry = .error e →
      Step bf s { (setPhase s i (.done (.failed e))) with cellLock := none }
  /-- Entry still `Loaded` and this task took the content and built
  successfully: publish `Ready` (src/handle.rs:281-294). -/
  | finishLoadedOk (s : Sys D V) (i : Nat) (a : V) :
      s.phases i = .ranBuild (some (.ok a)) → s.entry = .loaded →
      Step bf s
        { (setPhase s i (.done (.got a))) with
          entry := .ready a, cellLock := none }
  /-- Entry still `Loaded` and the build failed: publish `Error`
  (src/handle.rs:295-299). -/
  | finishLoadedErr (s : Sys D V) (i : Nat) (e : Error) :
      s.phases i = .ranBuild (some (.error e)) → s.entry = .loaded →
      Step bf s
        { (setPhase s i (.done (.failed e))) with
          entry := .error e, cellLock := none }

/-- Initial state: the entry is `Loaded` with decoded value `d` in the cell,
no locks held, every task about to call `Handle::build`. -/
def init (D V : Type) (d : D) : Sys D V :=
  { entry := .loaded, cell := some d, cellLock := none, builds := 0,
    phases := fun _ => .start }

/-- States reachable by interleaving build steps from the initial state. -/
def Reachable {D V : Type} (bf : D → Except Error V) (d : D)
    (s : Sys D V) : Prop :=
  Relation.ReflTransGen (Step bf) (init D V d) s

/-- The outcome the first (and only) build run determines. -/
def expectedOutcome {D V : Type} (bf : D → Except Error V) (d : D) :
    BuildOutcome V :=
  match bf d with
  | .ok a => .got a
  | .error e => .failed e

/-- The terminal entry state the first build run publishes. -/
def expectedEntry {D V : Type} (bf : D → Except Error V) (d : D) :
    EntrySt V :=
  match bf d with
  | .ok a => .ready a
  | .error e => .error e

/-- Inductive invariant of the protocol. -/
def Inv {D V : Type} (bf : D → Except Error V) (d : D) (s : Sys D V) :
    Prop :=
  s.builds ≤ 1 ∧
  (∀ i o, s.phases i = .ranBuild o → s.cellLock = some i) ∧
  (∀ i o, s.phases i = .ranBuild (some o) → o = bf d) ∧
  (∀ x, s.cell = some x →
    x = d ∧ s.builds = 0 ∧ s.entry = .loaded ∧ s.cellLock = none ∧
      ∀ i, s.phases i = .start ∨ s.phases i = .waitCell) ∧
  (s.cell = none →
    (s.entry = .loaded ∧ ∃ i, s.phases i = .ranBuild (some (bf d))) ∨
    (s.entry = expectedEntry bf d ∧
      ∀ i o, s.phases i ≠ .ranBuild (some o))) ∧
  (∀ i r, s.phases i = .done r → r = expectedOutcome bf d) ∧
  (s.entry = .loaded → ∀ i r, s.phases i ≠ .done r)

end BuildProtocol

/-! ## Theorems -/

namespace Id

/-- Every digit `hexDigits` emits is below 16. -/
theorem hexDigits_lt (v : Nat) : ∀ d ∈ hexDigits v, d < 16 := by
  induction v using Nat.strong_induction_on with
  | _ v ih =>
    rw [hexDigits]
    split
    · next h => intro d hd; simp at hd; omega
    · next h =>
      intro d hd
      simp only [List.mem_append, List.mem_singleton] at hd
      rcases hd with hd | hd
      · exact ih (v / 16) (Nat.div_lt_self (by omega) (by omega)) d hd
      · subst hd; exact Nat.mod_lt _ (by omega)

/-- `hexDigits` never returns an empty digit list. -/
theorem hexDigits_ne_nil (v : Nat) : hexDigits v ≠ [] := by
  rw [hexDigits]
  split
  · simp
  · simp

/-- Base-16 positional evaluation of the digit list recovers the value. -/
theorem hexDigits_foldl (v : Nat) : ∀ a : Nat,
    (hexDigits v).foldl (fun x d => x * 16 + d) a =
      a * 16 ^ (hexDigits v).length + v := by
  induction v using Nat.strong_induction_on with
  | _ v ih =>
    intro a
    rw [hexDigits]
    split
    · next h => simp
    · next h =>
      rw [List.foldl_append, List.length_append]
      rw [ih (v / 16) (Nat.div_lt_self (by omega) (by omega))]
      simp only [List.foldl_cons, List.foldl_nil, List.length_singleton]
      have hdm := Nat.div_add_mod v 16
      rw [pow_succ]
      ring_nf
      omega

/-- A value below `16 ^ n` has at most `n` hex digits (for `n ≥ 1`). -/
theorem hexDigits_length_le (v n : Nat) (h1 : v < 16 ^ n) (h2 : 1 ≤ n) :
    (hexDigits v).length ≤ n := by
  induction v using Nat.strong_induction_on generalizing n with
  | _ v ih =>
    rw [hexDigits]
    split
    · next h => simpa using h2
    · next h =>
      have hn2 : 2 ≤ n := by
        by_contra hc
        interval_cases n
        · omega
      have hdiv : v / 16 < 16 ^ (n - 1) := by
        rw [Nat.div_lt_iff_lt_mul (by omega)]
        calc v < 16 ^ n := h1
        _ = 16 ^ (n - 1) * 16 := by
              rw [← pow_succ]
              congr 1
              omega
      have := ih (v / 16) (Nat.div_lt_self (by omega) (by omega)) (n - 1)
        hdiv (by omega)
      simp only [List.length_append, List.length_singleton]
      omega

/-- The multiply-and-add accumulator never decreases. -/
theorem foldl_mul_add_le (ds : List Nat) (acc : Nat) :
    acc ≤ ds.foldl (fun a d => a * 16 + d) acc := by
  induction ds generalizing acc with
  | nil => simp
  | cons d ds ih =>
    simp only [List.foldl_cons]
    calc acc ≤ acc * 16 + d := by omega
    _ ≤ _ := ih _

/-- `hexDigitChar` digits parse back to themselves. -/
theorem hexDigitValue_hexDigitChar :
    ∀ d, d < 16 → hexDigitValue (hexDigitChar d) = some d := by
  decide

/-- Uppercased `hexDigitChar` digits also parse back to themselves
(`char::to_digit(16)` is case-insensitive). -/
theorem hexDigitValue_toUpper_hexDigitChar :
    ∀ d, d < 16 → hexDigitValue (Char.toUpper (hexDigitChar d)) = some d := by
  decide

/-- A hex digit character is never the sign `+`. -/
theorem hexDigitChar_ne_plus : ∀ d, d < 16 → hexDigitChar d ≠ '+' := by
  decide

/-- An uppercased hex digit character is never the sign `+`. -/
theorem toUpper_hexDigitChar_ne_plus :
    ∀ d, d < 16 → Char.toUpper (hexDigitChar d) ≠ '+' := by
  decide

/-- `hexDigitChar` emits a decimal digit or a lowercase letter `a`-`f`. -/
theorem hexDigitChar_lowercase :
    ∀ d, d < 16 →
      (48 ≤ (hexDigitChar d).toNat ∧ (hexDigitChar d).toNat ≤ 57) ∨
      (97 ≤ (hexDigitChar d).toNat ∧ (hexDigitChar d).toNat ≤ 102) := by
  decide

/-- The digit loop of `from_str_radix` accepts any digit encoding that
`char::to_digit(16)` inverts, and returns the positional value, provided it
fits in `u64`. -/
theorem from_str_radix_digits_enc (enc : Nat → Char)
    (henc : ∀ d, d < 16 → hexDigitValue (enc d) = some d)
    (ds : List Nat) (acc : Nat) (hd : ∀ d ∈ ds, d < 16)
    (hb : ds.foldl (fun a d => a * 16 + d) acc < U64_SIZE) :
    from_str_radix_digits (ds.map enc) acc =
      .ok (ds.foldl (fun a d => a * 16 + d) acc) := by
  induction ds generalizing acc with
  | nil => simp [from_str_radix_digits]
  | cons d ds ih =>
    have hdlt : d < 16 := hd d (by simp)
    have hrest : ∀ x ∈ ds, x < 16 := fun x hx => hd x (by simp [hx])
    simp only [List.map_cons, from_str_radix_digits, henc d hdlt]
    simp only [List.foldl_cons] at hb ⊢
    have hle : acc * 16 + d ≤ ds.foldl (fun a d => a * 16 + d) (acc * 16 + d) :=
      foldl_mul_add_le ds (acc * 16 + d)
    rw [if_pos (by omega)]
    exact ih (acc * 16 + d) hrest hb

/-- `u64::from_str_radix(s, 16)` on a non-empty encoded digit string
returns the positional value when it fits in `u64`. -/
theorem u64_from_str_radix_16_digits (enc : Nat → Char)
    (henc : ∀ d, d < 16 → hexDigitValue (enc d) = some d)
    (hplus : ∀ d, d < 16 → enc d ≠ '+')
    (xs : List Nat) (hne : xs ≠ []) (hlt : ∀ x ∈ xs, x < 16)
    (hb : xs.foldl (fun a d => a * 16 + d) 0 < U64_SIZE) :
    u64_from_str_radix_16 (String.mk (xs.map enc)) =
      .ok (xs.foldl (fun a d => a * 16 + d) 0) := by
  cases xs with
  | nil => exact absurd rfl hne
  | cons x xs =>
    have hx : x < 16 := hlt x (by simp)
    show u64_from_str_radix_16 ⟨enc x :: xs.map enc⟩ = _
    rw [u64_from_str_radix_16]
    simp only [if_neg (hplus x hx)]
    exact from_str_radix_digits_enc enc henc (x :: xs) 0 hlt hb

/-- Leading zero digits contribute nothing to the positional value. -/
theorem foldl_replicate_zero (k : Nat) :
    (List.replicate k 0).foldl (fun a d => a * 16 + d) 0 = 0 := by
  induction k with
  | zero => simp
  | succ k ih => simpa [List.replicate_succ] using ih

/-- The padded digit list of `serialize_hex` evaluates to the value. -/
theorem padded_digits_foldl (v : Nat) :
    (List.replicate (16 - (hexDigits v).length) 0 ++ hexDigits v).foldl
      (fun a d => a * 16 + d) 0 = v := by
  rw [List.foldl_append, foldl_replicate_zero, hexDigits_foldl]
  simp

/-- Every element of the padded digit list is below 16. -/
theorem padded_digits_lt (v : Nat) :
    ∀ d ∈ List.replicate (16 - (hexDigits v).length) 0 ++ hexDigits v,
      d < 16 := by
  intro d hd
  rcases List.mem_append.mp hd with hd | hd
  · have := List.eq_of_mem_replicate hd
    omega
  · exact hexDigits_lt v d hd

/-- `2 ^ 64 = 16 ^ 16`: the `u64` range in base-16 terms. -/
theorem u64_size_eq : U64_SIZE = 16 ^ 16 := by
  norm_num [U64_SIZE]

/-- C4: for every `AssetId` value `v` (non-zero, below `2^64`), the
human-readable encoding is exactly 16 characters, each a decimal digit or
lowercase `a`-`f`; parsing the encoding back yields `v`; parsing the
uppercased encoding also yields `v` (parse accepts hex digits of any case);
and the all-zero hex string — the encoding of the reserved zero value — is
rejected with `ZeroId`. -/
theorem c4_hex_roundtrip (v : Nat) (h0 : 0 < v) (h1 : v < U64_SIZE) :
    (serialize_hex v).length = 16 ∧
    (∀ c ∈ (serialize_hex v).data,
      (48 ≤ c.toNat ∧ c.toNat ≤ 57) ∨ (97 ≤ c.toNat ∧ c.toNat ≤ 102)) ∧
    assetId_from_str (serialize_hex v) = .ok v ∧
    assetId_from_str (String.mk ((serialize_hex v).data.map Char.toUpper)) =
      .ok v ∧
    assetId_from_str (String.mk (List.replicate 16 '0')) = .error .zeroId := by
  have hlen1 : 1 ≤ (hexDigits v).length :=
    List.length_pos.mpr (hexDigits_ne_nil v)
  have hlen16 : (hexDigits v).length ≤ 16 :=
    hexDigits_length_le v 16 (u64_size_eq ▸ h1) (by omega)
  have hdata : (serialize_hex v).data =
      (List.replicate (16 - (hexDigits v).length) 0 ++ hexDigits v).map
        hexDigitChar := rfl
  refine ⟨?_, ?_, ?_, ?_, ?_⟩
  · show (serialize_hex v).data.length = 16
    rw [hdata]
    simp only [List.length_map, List.length_append, List.length_replicate]
    omega
  · intro c hc
    rw [hdata] at hc
    obtain ⟨d, hd, rfl⟩ := List.mem_map.mp hc
    exact hexDigitChar_lowercase d (padded_digits_lt v d hd)
  · rw [assetId_from_str, serialize_hex]
    rw [u64_from_str_radix_16_digits hexDigitChar hexDigitValue_hexDigitChar
      hexDigitChar_ne_plus _
      (by simp [hexDigits_ne_nil v])
      (padded_digits_lt v)
      (by rw [padded_digits_foldl]; exact h1)]
    rw [padded_digits_foldl]
    simp only [if_neg (by omega : ¬v = 0)]
  · rw [assetId_from_str, hdata, List.map_map]
    simp only [Function.comp_def]
    rw [u64_from_str_radix_16_digits _
      hexDigitValue_toUpper_hexDigitChar
      toUpper_hexDigitChar_ne_plus _
      (by simp [hexDigits_ne_nil v])
      (padded_digits_lt v)
      (by rw [padded_digits_foldl]; exact h1)]
    rw [padded_digits_foldl]
    simp only [if_neg (by omega : ¬v = 0)]
  · have hz : List.replicate 16 '0' = (List.replicate 16 0).map hexDigitChar := by
      rw [List.map_replicate]
      rfl
    rw [assetId_from_str, hz]
    rw [u64_from_str_radix_16_digits hexDigitChar hexDigitValue_hexDigitChar
      hexDigitChar_ne_plus _
      (by simp)
      (by intro d hd; have := List.eq_of_mem_replicate hd; omega)
      (by rw [foldl_replicate_zero]; norm_num [U64_SIZE])]
    rw [foldl_replicate_zero]
    simp

/-- C4 witness: the round-trip theorem applied at the concrete id value
`0xbeef`. -/
theorem c4_hex_roundtrip_witness :
    0 < 48879 ∧ 48879 < U64_SIZE ∧
    (serialize_hex 48879).length = 16 ∧
    assetId_from_str (serialize_hex 48879) = .ok 48879 := by
  have h0 : 0 < 48879 := by norm_num
  have h1 : 48879 < U64_SIZE := by norm_num [U64_SIZE]
  obtain ⟨ha, -, hb, -, -⟩ := c4_hex_roundtrip 48879 h0 h1
  exact ⟨h0, h1, ha, hb⟩

end Id

namespace ImportFFI

/-- Padding to width `n` fixes the length when the input fits. -/
theorem nulPad_length (n : Nat) (bs : List Nat) (h : bs.length ≤ n) :
    (nulPad n bs).length = n := by
  simp [nulPad]
  omega

/-- C3 counterexample: the FFI does not define a single `REQUIRES` code of
value 1 — `REQUIRE_SOURCES` is a return code of value 2, distinct from
`REQUIRE_DEPENDENCIES = 1` and absent from the claimed code set
`{1, 0, -1, -2, -3, -6}`; `importer_import_ffi` returns it for a
`RequireSources` outcome. -/
theorem c3_two_require_codes :
    REQUIRE_SOURCES = 2 ∧
    REQUIRE_SOURCES ∈ ffiReturnCodes ∧
    REQUIRE_SOURCES ∉ ([1, 0, -1, -2, -3, -6] : List Int) ∧
    REQUIRE_SOURCES ≠ REQUIRE_DEPENDENCIES ∧
    importer_import_return_code (.requireSources [[97]]) = 2 := by
  refine ⟨rfl, ?_, ?_, ?_, rfl⟩ <;> decide

/-- C3 (amended): the importer plugin FFI defines the return-code constants
`REQUIRE_SOURCES = 2`, `REQUIRE_DEPENDENCIES = 1`, `SUCCESS = 0`,
`NOT_FOUND = -1`, `NOT_UTF8 = -2`, `BUFFER_IS_TOO_SMALL = -3`,
`OTHER_ERROR = -6`; there are two REQUIRE codes, and `importer_import_ffi`
returns 2 for missing sources and 1 for missing dependencies. -/
theorem c3_return_code_constants :
    ffiReturnCodes = [2, 1, 0, -1, -2, -3, -6] ∧
    (∀ srcs, importer_import_return_code (.requireSources srcs) =
      REQUIRE_SOURCES) ∧
    (∀ deps, importer_import_return_code (.requireDependencies deps) =
      REQUIRE_DEPENDENCIES) ∧
    importer_import_return_code .ok = SUCCESS ∧
    (∀ reason, importer_import_return_code (.other reason) = OTHER_ERROR) :=
  ⟨rfl, fun _ => rfl, fun _ => rfl, rfl, fun _ => rfl⟩

/-- C8 counterexample: an importer with non-empty NUL-free name and target,
one 1-byte format and exactly 16 extensions of 1 byte each satisfies every
bound the claim states (at most 16 extensions of at most 16 bytes), yet
`ImporterFFI::new` rejects it — its guard requires *fewer than* 16
extensions. -/
theorem c8_sixteen_extensions_rejected :
    claimed_importer_accepts
      ⟨[97], [[102]], [98], List.replicate 16 [101]⟩ = true ∧
    importerFFI_new_accepts
      ⟨[97], [[102]], [98], List.replicate 16 [101]⟩ = false := by
  decide

/-- The guard conjunction of `ImporterFFI::new`, spelt out as a
proposition. -/
theorem importerFFI_new_accepts_iff (d : ImporterDesc) :
    importerFFI_new_accepts d = true ↔
      (d.name.length ≤ 64 ∧ d.formats.length ≤ 32 ∧
        (∀ f ∈ d.formats, f.length ≤ 64) ∧ d.target.length ≤ 64 ∧
        d.extensions.length < 16 ∧ (∀ e ∈ d.extensions, e.length < 16) ∧
        d.name ≠ [] ∧ d.formats ≠ [] ∧ d.target ≠ [] ∧
        0 ∉ d.name ∧ (∀ f ∈ d.formats, 0 ∉ f) ∧ 0 ∉ d.target ∧
        (∀ e ∈ d.extensions, 0 ∉ e)) := by
  simp [importerFFI_new_accepts, MAX_FFI_NAME_LEN, MAX_FORMATS_COUNT,
    MAX_EXTENSION_COUNT, MAX_EXTENSION_LEN]
  tauto

/-- C8 (amended): `ImporterFFI::new` accepts exactly the importers whose
name and target are non-empty, NUL-free and at most 64 bytes, with at least
one and at most 32 formats each NUL-free and at most 64 bytes, and fewer
than 16 extensions each NUL-free and shorter than 16 bytes; the descriptor
stores the strings NUL-padded in fixed-width arrays (name/target 64 bytes,
32 format slots of 64 bytes, 16 extension slots of 16 bytes). -/
theorem c8_importer_new_guards (d : ImporterDesc) :
    (importerFFI_new_accepts d = true ↔
      (d.name.length ≤ 64 ∧ d.formats.length ≤ 32 ∧
        (∀ f ∈ d.formats, f.length ≤ 64) ∧ d.target.length ≤ 64 ∧
        d.extensions.length < 16 ∧ (∀ e ∈ d.extensions, e.length < 16) ∧
        d.name ≠ [] ∧ d.formats ≠ [] ∧ d.target ≠ [] ∧
        0 ∉ d.name ∧ (∀ f ∈ d.formats, 0 ∉ f) ∧ 0 ∉ d.target ∧
        (∀ e ∈ d.extensions, 0 ∉ e))) ∧
    (importerFFI_new_accepts d = true →
      (importerFFI_new_bufs d).name = nulPad 64 d.name ∧
      (importerFFI_new_bufs d).name.length = 64 ∧
      (importerFFI_new_bufs d).target = nulPad 64 d.target ∧
      (importerFFI_new_bufs d).target.length = 64 ∧
      (importerFFI_new_bufs d).formats.length = 32 ∧
      (∀ f ∈ (importerFFI_new_bufs d).formats, f.length = 64) ∧
      (importerFFI_new_bufs d).extensions.length = 16 ∧
      (∀ e ∈ (importerFFI_new_bufs d).extensions, e.length = 16)) := by
  refine ⟨importerFFI_new_accepts_iff d, ?_⟩
  intro hacc
  obtain ⟨hn, hfc, hfl, ht, hec, hel, -, -, -, -, -, -, -⟩ :=
    (importerFFI_new_accepts_iff d).mp hacc
  refine ⟨rfl, nulPad_length _ _ hn, rfl, nulPad_length _ _ ht, ?_, ?_, ?_, ?_⟩
  · simp [importerFFI_new_bufs, MAX_FORMATS_COUNT]
    omega
  · intro f hf
    simp only [importerFFI_new_bufs, List.mem_append, List.mem_map,
      List.mem_replicate] at hf
    rcases hf with ⟨g, hg, rfl⟩ | ⟨-, rfl⟩
    · exact nulPad_length _ _ (hfl g hg)
    · simp [MAX_FFI_NAME_LEN]
  · simp [importerFFI_new_bufs, MAX_EXTENSION_COUNT]
    omega
  · intro e he
    simp only [importerFFI_new_bufs, List.mem_append, List.mem_map,
      List.mem_replicate] at he
    rcases he with ⟨g, hg, rfl⟩ | ⟨-, rfl⟩
    · exact nulPad_length _ _ (Nat.le_of_lt (hel g hg))
    · simp [MAX_EXTENSION_LEN]

/-- C8 amended-claim witness: the guard theorem applied at a concrete
accepted importer (name `a`, one format `f`, target `b`, one extension
`e`). -/
theorem c8_importer_new_guards_witness :
    importerFFI_new_accepts ⟨[97], [[102]], [98], [[101]]⟩ = true ∧
    (importerFFI_new_bufs ⟨[97], [[102]], [98], [[101]]⟩).name =
      nulPad 64 [97] ∧
    (importerFFI_new_bufs ⟨[97], [[102]], [98], [[101]]⟩).name.length = 64 ∧
    (importerFFI_new_bufs ⟨[97], [[102]], [98], [[101]]⟩).formats.length =
      32 ∧
    (importerFFI_new_bufs ⟨[97], [[102]], [98], [[101]]⟩).extensions.length =
      16 := by
  have hacc : importerFFI_new_accepts ⟨[97], [[102]], [98], [[101]]⟩ =
      true := by decide
  obtain ⟨h1, h2, -, -, h5, -, h7, -⟩ :=
    (c8_importer_new_guards ⟨[97], [[102]], [98], [[101]]⟩).2 hacc
  exact ⟨hacc, h1, h2, h5, h7⟩

end ImportFFI

namespace Loader

/-- C1: `LoaderBuilder::build` creates exactly `num_shards` shards per cache
table, performing neither the next-power-of-two rounding nor the 512 cap
that `set_num_shards`'s own documentation (src/loader.rs:87-88) and the spec
describe: with `set_num_shards(3)` both tables get 3 shards where the
claim requires 4, and with `set_num_shards(1000)` both get 1000 where the
claim requires 512.  The default (8 × CPU count) part of the claim does hold
of `LoaderBuilder::new`. -/
theorem c1_shard_count_not_rounded :
    (((LoaderBuilder.new 4).set_num_shards 3).build).asset_shards = 3 ∧
    (((LoaderBuilder.new 4).set_num_shards 3).build).path_shards = 3 ∧
    spec_shard_count 3 = 4 ∧
    (((LoaderBuilder.new 4).set_num_shards 1000).build).asset_shards = 1000 ∧
    spec_shard_count 1000 = 512 ∧
    (∀ num_cpus,
      (LoaderBuilder.new num_cpus).num_shards =
        DEFAULT_SHARDS_PER_CPU * num_cpus) ∧
    (∀ b n, ((LoaderBuilder.set_num_shards b n).build).asset_shards = n ∧
      ((LoaderBuilder.set_num_shards b n).build).path_shards = n) := by
  refine ⟨rfl, rfl, ?_, rfl, ?_, fun _ => rfl, fun _ _ => ⟨rfl, rfl⟩⟩ <;>
    norm_num [spec_shard_count, Nat.clog]

/-- C2: in the `Some(id)` branch of `find_asset_task` the path-shard lock is
*not* released before the id-shard lock is acquired — the guard is shadowed,
so after the id-shard acquisition (the second event of the trace) both
shard locks are held simultaneously, contradicting the claim. -/
theorem c2_both_shard_locks_held :
    locksHeld (find_asset_task_lock_trace.take 2) = (true, true) ∧
    holdsBothAtSomePoint find_asset_task_lock_trace = true := by
  decide

/-- Sources that answer `Ok(None)` are stepped over by the `load_asset`
walk. -/
theorem load_asset_from_all_none (pre rest : List Source) (idx id : Nat)
    (h : ∀ t ∈ pre, t.load id = .ok none) :
    load_asset_from (pre ++ rest) idx id =
      load_asset_from rest (idx + pre.length) id := by
  induction pre generalizing idx with
  | nil => simp
  | cons s pre ih =>
    have hs : s.load id = .ok none := h s (by simp)
    have hpre : ∀ t ∈ pre, t.load id = .ok none :=
      fun t ht => h t (by simp [ht])
    simp only [List.cons_append, load_asset_from, hs, List.append_eq]
    rw [ih _ hpre]
    congr 1
    simp
    omega

/-- Sources that answer `Ok(None)` each contribute one consultation. -/
theorem load_asset_consulted_all_none (pre rest : List Source) (id : Nat)
    (h : ∀ t ∈ pre, t.load id = .ok none) :
    load_asset_consulted (pre ++ rest) id =
      pre.length + load_asset_consulted rest id := by
  induction pre with
  | nil => simp
  | cons s pre ih =>
    have hs : s.load id = .ok none := h s (by simp)
    have hpre : ∀ t ∈ pre, t.load id = .ok none :=
      fun t ht => h t (by simp [ht])
    simp only [List.cons_append, load_asset_consulted, hs, List.append_eq,
      ih hpre, List.length_cons]
    omega

/-- Sources whose `find` answers `None` are stepped over by the
`find_asset` walk. -/
theorem find_asset_all_none (pre rest : List Source) (path name : String)
    (h : ∀ t ∈ pre, t.find path name = none) :
    find_asset (pre ++ rest) path name = find_asset rest path name := by
  induction pre with
  | nil => simp
  | cons s pre ih =>
    have hs : s.find path name = none := h s (by simp)
    have hpre : ∀ t ∈ pre, t.find path name = none :=
      fun t ht => h t (by simp [ht])
    simp only [List.cons_append, find_asset, hs, List.append_eq, ih hpre]

/-- `None`-answering sources each contribute one `find` consultation. -/
theorem find_asset_consulted_all_none (pre rest : List Source)
    (path name : String) (h : ∀ t ∈ pre, t.find path name = none) :
    find_asset_consulted (pre ++ rest) path name =
      pre.length + find_asset_consulted rest path name := by
  induction pre with
  | nil => simp
  | cons s pre ih =>
    have hs : s.find path name = none := h s (by simp)
    have hpre : ∀ t ∈ pre, t.find path name = none :=
      fun t ht => h t (by simp [ht])
    simp only [List.cons_append, find_asset_consulted, hs, List.append_eq,
      ih hpre, List.length_cons]
    omega

/-- Looking up the key just written returns the written state. -/
theorem findEntry_setEntry_self {K S : Type} [DecidableEq K]
    (c : List (K × S)) (k : K) (s : S) :
    findEntry (setEntry c k s) k = some s := by
  induction c with
  | nil => simp [setEntry, findEntry]
  | cons p rest ih =>
    by_cases h : p.1 = k
    · simp [setEntry, h, findEntry]
    · simp [setEntry, h, findEntry, ih]

/-- Writing one key leaves every other key's entry unchanged. -/
theorem findEntry_setEntry_ne {K S : Type} [DecidableEq K]
    (c : List (K × S)) (k k' : K) (s : S) (h : k' ≠ k) :
    findEntry (setEntry c k s) k' = findEntry c k' := by
  induction c with
  | nil => simp [setEntry, findEntry, Ne.symm h]
  | cons p rest ih =>
    obtain ⟨k1, s1⟩ := p
    by_cases hp : k1 = k
    · subst hp
      rw [setEntry, if_pos rfl, findEntry, if_neg (Ne.symm h), findEntry,
        if_neg (Ne.symm h)]
    · rw [setEntry, if_neg hp, findEntry, findEntry]
      split
      · rfl
      · exact ih

/-- Writing back the state an entry already holds leaves the map
unchanged. -/
theorem setEntry_findEntry_self {K S : Type} [DecidableEq K]
    (c : List (K × S)) (k : K) (s : S) (h : findEntry c k = some s) :
    setEntry c k s = c := by
  induction c with
  | nil => simp [findEntry] at h
  | cons p rest ih =>
    by_cases hp : p.1 = k
    · rw [findEntry, if_pos hp] at h
      cases h
      cases p with
      | mk k1 s1 =>
        simp only at hp
        subst hp
        simp [setEntry]
    · rw [findEntry, if_neg hp] at h
      simp [setEntry, hp, ih h]

/-- Every source built from a `FileSource` answers `None` to `find`, so the
whole walk does. -/
theorem find_asset_file_sources (fss : List FileSource)
    (path name : String) :
    find_asset (fss.map FileSource.toSource) path name = none := by
  induction fss with
  | nil => rfl
  | cons f fss ih =>
    simp [find_asset, FileSource.toSource, FileSource.find, ih]

/-- An all-`Ok(None)` source list makes `load_asset` return `Ok(None)`,
consulting every source exactly once. -/
theorem load_asset_all_none (sources : List Source) (id : Nat)
    (h : ∀ s ∈ sources, s.load id = .ok none) :
    load_asset sources id = .ok none ∧
    load_asset_consulted sources id = sources.length := by
  constructor
  · have := load_asset_from_all_none sources [] 0 id h
    rw [List.append_nil] at this
    exact this
  · have := load_asset_consulted_all_none sources [] id h
    rw [List.append_nil] at this
    simpa [load_asset_consulted] using this

/-- C7: the loader's source walks query sources sequentially in list order.
For `load`: after a prefix of sources answering `Ok(None)`, a source
answering `Ok(Some(data))` wins — the result carries its bytes, version and
index, exactly the prefix plus the winner are consulted, and the sources
after the winner are irrelevant (any suffix gives the same result); a
source answering `Err` aborts the walk with that error, again consulting
only the prefix plus the failing source.  For `find`: after a prefix
answering `None`, the first `Some(id)` wins with the same consultation
count and suffix-independence. -/
theorem c7_source_walk_priority (pre : List Source) (s : Source)
    (post : List Source) (id : Nat)
    (hpre : ∀ t ∈ pre, t.load id = .ok none) :
    (∀ a, s.load id = .ok (some a) →
      load_asset (pre ++ s :: post) id =
        .ok (some ⟨a.bytes, a.version, pre.length⟩) ∧
      load_asset_consulted (pre ++ s :: post) id = pre.length + 1 ∧
      ∀ post', load_asset (pre ++ s :: post') id =
        load_asset (pre ++ s :: post) id) ∧
    (∀ e, s.load id = .error e →
      load_asset (pre ++ s :: post) id = .error e ∧
      load_asset_consulted (pre ++ s :: post) id = pre.length + 1) ∧
    (∀ (fpre : List Source) (f : Source) (fpost : List Source)
        (path name : String) (fid : Nat),
      (∀ t ∈ fpre, t.find path name = none) → f.find path name = some fid →
      find_asset (fpre ++ f :: fpost) path name = some fid ∧
      find_asset_consulted (fpre ++ f :: fpost) path name =
        fpre.length + 1 ∧
      ∀ fpost', find_asset (fpre ++ f :: fpost') path name = some fid) := by
  refine ⟨?_, ?_, ?_⟩
  · intro a ha
    refine ⟨?_, ?_, ?_⟩
    · rw [load_asset, load_asset_from_all_none pre _ 0 id hpre]
      simp [load_asset_from, ha]
    · rw [load_asset_consulted_all_none pre _ id hpre]
      simp [load_asset_consulted, ha]
    · intro post'
      rw [load_asset, load_asset_from_all_none pre _ 0 id hpre,
        load_asset, load_asset_from_all_none pre _ 0 id hpre]
      simp [load_asset_from, ha]
  · intro e he
    refine ⟨?_, ?_⟩
    · rw [load_asset, load_asset_from_all_none pre _ 0 id hpre]
      simp [load_asset_from, he]
    · rw [load_asset_consulted_all_none pre _ id hpre]
      simp [load_asset_consulted, he]
  · intro fpre f fpost path name fid hfpre hf
    refine ⟨?_, ?_, ?_⟩
    · rw [find_asset_all_none fpre _ path name hfpre]
      simp [find_asset, hf]
    · rw [find_asset_consulted_all_none fpre _ path name hfpre]
      simp [find_asset_consulted, hf]
    · intro fpost'
      rw [find_asset_all_none fpre _ path name hfpre]
      simp [find_asset, hf]

/-- C7 witness: the walk-priority theorem at a two-source list — an
all-`None` source followed by a winner — for id 1 and path lookup `"p"`. -/
theorem c7_source_walk_priority_witness :
    load_asset
        [⟨fun _ _ => none, fun _ => .ok none⟩,
          ⟨fun _ _ => some 5, fun _ => .ok (some ⟨[1, 2], 7⟩)⟩] 1 =
      .ok (some ⟨[1, 2], 7, 1⟩) ∧
    load_asset_consulted
        [⟨fun _ _ => none, fun _ => .ok none⟩,
          ⟨fun _ _ => some 5, fun _ => .ok (some ⟨[1, 2], 7⟩)⟩] 1 = 2 ∧
    find_asset
        [⟨fun _ _ => none, fun _ => .ok none⟩,
          ⟨fun _ _ => some 5, fun _ => .ok (some ⟨[1, 2], 7⟩)⟩] "p" "A" =
      some 5 := by
  obtain ⟨hsome, -, hfind⟩ :=
    c7_source_walk_priority [⟨fun _ _ => none, fun _ => .ok none⟩]
      ⟨fun _ _ => some 5, fun _ => .ok (some ⟨[1, 2], 7⟩)⟩ [] 1
      (by intro t ht; simp at ht; subst ht; rfl)
  obtain ⟨h1, h2, -⟩ := hsome ⟨[1, 2], 7⟩ rfl
  obtain ⟨h3, -, -⟩ :=
    hfind [⟨fun _ _ => none, fun _ => .ok none⟩]
      ⟨fun _ _ => some 5, fun _ => .ok (some ⟨[1, 2], 7⟩)⟩ [] "p" "A" 5
      (by intro t ht; simp at ht; subst ht; rfl) rfl
  exact ⟨h1, h2, h3⟩

/-- C10: `FileSource::find` returns `None` for every path and asset-type
name, so with only `FileSource`s (over arbitrary filesystem contents) the
find walk yields `None`; a load-by-path request spawns a find task whose
walk finds nothing, the path entry becomes `Missing`, and the returned
handle resolves to the missing outcome `NotFound { path, id: None }`. -/
theorem c10_file_source_path_missing {D V : Type} [DecidableEq V]
    (fss : List FileSource) (decode : List Nat → Except Error D)
    (ty : TypeTag) (name path : String) (pc : PathCache)
    (ac : AssetCache D V)
    (hvac : findEntry pc (ty, path) = none) :
    (∀ f p a, FileSource.find f p a = none) ∧
    find_asset (fss.map FileSource.toSource) path name = none ∧
    (Loader.load_path pc ac ty path).spawned_find = true ∧
    (Loader.load_path pc ac ty path).handle =
      AssetHandle.new ⟨ty, none, some path, .searching⟩ ∧
    (Loader.load_path pc ac ty path).path_cache =
      setEntry pc (ty, path) (.unloaded [] []) ∧
    find_asset_task (fss.map FileSource.toSource) decode ty name path
        (setEntry pc (ty, path) (.unloaded [] [])) ac =
      (setEntry (setEntry pc (ty, path) (.unloaded [] []))
        (ty, path) PathState.missing, ac) ∧
    (AssetHandle.poll_ready (D := D)
        ⟨none, ⟨ty, none, some path, .searching⟩⟩
        (setEntry (setEntry pc (ty, path) (.unloaded [] []))
          (ty, path) PathState.missing) ac).1 =
      some (.error (.notFound (some path) none)) := by
  refine ⟨fun _ _ _ => rfl, find_asset_file_sources fss path name,
    ?_, ?_, ?_, ?_, ?_⟩
  · simp [Loader.load_path, hvac]
  · simp [Loader.load_path, hvac]
  · simp [Loader.load_path, hvac]
  · rw [find_asset_task, find_asset_file_sources fss path name,
      findEntry_setEntry_self]
  · rw [AssetHandle.poll_ready]
    simp only [Handle.poll, findEntry_setEntry_self, Handle.get]
    rfl

/-- C10 witness: the path-missing theorem at a single `FileSource` whose
filesystem does contain bytes for every id, an empty cache and concrete
key. -/
theorem c10_file_source_path_missing_witness :
    (find_asset_task (D := Nat) (V := Nat)
        ([⟨fun _ => Except.ok (some ⟨[9], 1⟩)⟩].map FileSource.toSource)
        (fun _ => .ok 0) 0 "Tex" "p" (setEntry [] (0, "p") (.unloaded [] []))
        []).1 =
      setEntry (setEntry [] (0, "p") (.unloaded [] []))
        (0, "p") PathState.missing ∧
    (AssetHandle.poll_ready (D := Nat) (V := Nat)
        ⟨none, ⟨0, none, some "p", .searching⟩⟩
        (setEntry (setEntry [] (0, "p") (.unloaded [] []))
          (0, "p") PathState.missing) []).1 =
      some (.error (.notFound (some "p") none)) := by
  obtain ⟨-, -, -, -, -, h6, h7⟩ :=
    c10_file_source_path_missing (D := Nat) (V := Nat)
      [⟨fun _ => Except.ok (some ⟨[9], 1⟩)⟩] (fun _ => .ok 0) 0 "Tex" "p"
      [] [] rfl
  exact ⟨by rw [h6], h7⟩

/-- C5: when every source answers `Ok(None)` for an id, the first
`load_with_id` registers `Unloaded` and spawns the load task; the task
consults every source once, finds nothing and stores `Missing`; the first
handle then resolves to `NotFound { id: Some id, path: None }`; and a
second `load_with_id` of the same `(type, id)` returns a `Missing` handle
from the cached entry — same `NotFound { id, path: None }` outcome — with
the cache unchanged and no task spawned (hence no further source calls). -/
theorem c5_missing_memoised {D V : Type} [DecidableEq V]
    (sources : List Source) (decode : List Nat → Except Error D)
    (ty id : Nat) (ac0 : AssetCache D V) (pc : PathCache)
    (hs : ∀ s ∈ sources, s.load id = .ok none)
    (h0 : findEntry ac0 (ty, id) = none) :
    (Loader.load_with_id (D := D) ac0 ty id).spawned = true ∧
    (Loader.load_with_id (D := D) ac0 ty id).handle =
      AssetHandle.new ⟨ty, some id, none, .loading⟩ ∧
    (Loader.load_with_id (D := D) ac0 ty id).asset_cache =
      setEntry ac0 (ty, id) (.unloaded []) ∧
    load_asset sources id = .ok none ∧
    load_asset_consulted sources id = sources.length ∧
    load_asset_task sources decode
        (setEntry ac0 (ty, id) (.unloaded [])) ty id =
      setEntry (setEntry ac0 (ty, id) (.unloaded []))
        (ty, id) AssetState.missing ∧
    (AssetHandle.poll_ready
        ⟨none, ⟨ty, some id, none, .loading⟩⟩ pc
        (setEntry (setEntry ac0 (ty, id) (.unloaded []))
          (ty, id) AssetState.missing)).1 =
      some (.error (.notFound none (some id))) ∧
    Loader.load_with_id
        (setEntry (setEntry ac0 (ty, id) (.unloaded []))
          (ty, id) AssetState.missing) ty id =
      ⟨AssetHandle.new ⟨ty, some id, none, .missing⟩,
        setEntry (setEntry ac0 (ty, id) (.unloaded []))
          (ty, id) AssetState.missing,
        false⟩ ∧
    (AssetHandle.poll_ready
        ⟨none, ⟨ty, some id, none, .missing⟩⟩ pc
        (setEntry (setEntry ac0 (ty, id) (.unloaded []))
          (ty, id) AssetState.missing)).1 =
      some (.error (.notFound none (some id))) := by
  obtain ⟨hwalk, hcount⟩ := load_asset_all_none sources id hs
  refine ⟨?_, ?_, ?_, hwalk, hcount, ?_, ?_, ?_, ?_⟩
  · simp [Loader.load_with_id, h0]
  · simp [Loader.load_with_id, h0]
  · simp [Loader.load_with_id, h0]
  · rw [load_asset_task]
    rw [hwalk, findEntry_setEntry_self]
  · rw [AssetHandle.poll_ready]
    simp only [Handle.poll, Handle.poll_id_entry, Handle.poll_lookup,
      findEntry_setEntry_self, Handle.get]
    rfl
  · rw [Loader.load_with_id, findEntry_setEntry_self]
  · rw [AssetHandle.poll_ready]
    simp only [Handle.poll, Handle.poll_id_entry, Handle.get]
    rfl

/-- C5 witness: the missing-memoisation theorem at one all-`None` source,
an empty cache and concrete type tag and id 99. -/
theorem c5_missing_memoised_witness :
    load_asset_task (D := Nat) (V := Nat)
        [⟨fun _ _ => none, fun _ => .ok none⟩] (fun _ => .ok 0)
        (setEntry [] (0, 99) (.unloaded [])) 0 99 =
      setEntry (setEntry [] (0, 99) (.unloaded []))
        (0, 99) AssetState.missing ∧
    (AssetHandle.poll_ready (D := Nat) (V := Nat)
        ⟨none, ⟨0, some 99, none, .loading⟩⟩ []
        (setEntry (setEntry [] (0, 99) (.unloaded []))
          (0, 99) AssetState.missing)).1 =
      some (.error (.notFound none (some 99))) ∧
    Loader.load_with_id (D := Nat) (V := Nat)
        (setEntry (setEntry [] (0, 99) (.unloaded []))
          (0, 99) AssetState.missing) 0 99 =
      ⟨AssetHandle.new ⟨0, some 99, none, .missing⟩,
        setEntry (setEntry [] (0, 99) (.unloaded []))
          (0, 99) AssetState.missing,
        false⟩ := by
  obtain ⟨-, -, -, -, -, h6, h7, h8, -⟩ :=
    c5_missing_memoised (D := Nat) (V := Nat)
      [⟨fun _ _ => none, fun _ => .ok none⟩] (fun _ => .ok 0) 0 99 [] []
      (by intro s hsmem; simp at hsmem; subst hsmem; rfl) rfl
  exact ⟨h6, h7, h8⟩

/-- C9: on a handle whose id-entry is `Loaded` (decoded, not yet built), the
ready-observation surfaces only register a waker and report not-ready:
`Handle::poll(Ready)` appends the waker to the entry's waker list and
returns `false`, leaving the entry `Loaded` with the same decoded cell,
version and source; `poll_ready` returns `None` and leaves the caches
untouched; awaiting `ready()` is pending; in fact no poll of any kind moves
the entry out of `Loaded` or touches its decoded cell — only `poll_build`
(and the equivalent `LoadedAsset`/driver build path through
`Handle::build`) consumes the cell and advances the entry to
`Ready`/`Error`. -/
theorem c9_loaded_ready_observation {D V : Type} [DecidableEq V]
    (h : Handle V) (id : Nat) (dec : Option D) (ver src : Nat)
    (ws : List Waker) (pc : PathCache) (ac : AssetCache D V) (w : Waker)
    (hid : h.id = some id)
    (hst : h.state = .loading ∨ h.state = .loaded)
    (hentry : findEntry ac (h.type_id, id) = some (.loaded dec ver src ws)) :
    Handle.poll h .ready (some w) pc ac =
      ⟨{ h with state := .loaded }, pc,
        setEntry ac (h.type_id, id) (.loaded dec ver src (ws ++ [w])),
        false⟩ ∧
    AssetHandle.poll_ready ⟨none, h⟩ pc ac =
      (none, ⟨none, { h with state := .loaded }⟩) ∧
    (AssetFuture.poll ⟨none, h⟩ w pc ac).1 = none ∧
    (∀ (pollFor : PollFor) (waker : Option Waker), ∃ ws',
      findEntry ((Handle.poll h pollFor waker pc ac).asset_cache)
        (h.type_id, id) = some (.loaded dec ver src ws')) ∧
    (∀ (d : D) (bf : D → Except Error V), dec = some d →
      (AssetHandle.poll_build ⟨none, h⟩ bf pc ac).1 = some (bf d) ∧
      (AssetHandle.poll_build ⟨none, h⟩ bf pc ac).2.2 =
        setEntry ac (h.type_id, id)
          (match bf d with
            | .ok a => AssetState.ready a ver src
            | .error e => AssetState.error e)) := by
  obtain ⟨t, i, p, st⟩ := h
  simp only at hid
  subst hid
  simp only at hentry
  have hpoll_ready : ∀ waker,
      Handle.poll (D := D) ⟨t, some id, p, st⟩ .ready waker pc ac =
        ⟨⟨t, some id, p, .loaded⟩, pc,
          setEntry ac (t, id) (.loaded dec ver src (pushWaker waker ws)),
          false⟩ := by
    intro waker
    rcases hst with hst | hst <;> subst hst <;>
      simp [Handle.poll, Handle.poll_id_entry, Handle.poll_lookup, hentry]
  have hsetself :
      setEntry ac (t, id) (.loaded dec ver src (pushWaker none ws)) = ac :=
    setEntry_findEntry_self ac (t, id) _ hentry
  refine ⟨?_, ?_, ?_, ?_, ?_⟩
  · simpa [pushWaker] using hpoll_ready (some w)
  · rw [AssetHandle.poll_ready]
    simp only [hpoll_ready none]
    simp
  · rw [AssetFuture.poll]
    simp only [hpoll_ready (some w)]
    simp
  · intro pollFor waker
    rcases hst with hst | hst <;> subst hst
    · cases pollFor
      · exact ⟨ws, by simpa [Handle.poll] using hentry⟩
      · refine ⟨ws, ?_⟩
        simp [Handle.poll, Handle.poll_id_entry, Handle.poll_lookup, hentry]
      · refine ⟨pushWaker waker ws, ?_⟩
        simp [Handle.poll, Handle.poll_id_entry, Handle.poll_lookup, hentry,
          findEntry_setEntry_self]
    · cases pollFor
      · exact ⟨ws, by simpa [Handle.poll] using hentry⟩
      · refine ⟨ws, ?_⟩
        simp [Handle.poll, Handle.poll_id_entry, hentry]
      · refine ⟨pushWaker waker ws, ?_⟩
        simp [Handle.poll, Handle.poll_id_entry, Handle.poll_lookup, hentry,
          findEntry_setEntry_self]
  · intro d bf hdec
    subst hdec
    have hpoll_load :
        Handle.poll (D := D) ⟨t, some id, p, st⟩ .load none pc ac =
          ⟨⟨t, some id, p, .loaded⟩, pc, ac, true⟩ := by
      rcases hst with hst | hst <;> subst hst <;>
        simp [Handle.poll, Handle.poll_id_entry, Handle.poll_lookup, hentry]
    rw [AssetHandle.poll_build]
    simp only [hpoll_load]
    cases hbf : bf d <;>
      simp [Handle.build, hentry, hbf]

/-- C9 witness: the ready-observation theorem at a concrete `Loading`
handle over a one-entry cache holding `Loaded` with decoded value 5. -/
theorem c9_loaded_ready_observation_witness :
    AssetHandle.poll_ready (D := Nat) (V := Nat)
        ⟨none, ⟨0, some 1, none, .loading⟩⟩ []
        [((0, 1), AssetState.loaded (some 5) 2 0 [])] =
      (none, ⟨none, ⟨0, some 1, none, .loaded⟩⟩) ∧
    (AssetHandle.poll_build (D := Nat) (V := Nat)
        ⟨none, ⟨0, some 1, none, .loading⟩⟩ (fun d => .ok (d + 1)) []
        [((0, 1), AssetState.loaded (some 5) 2 0 [])]).1 = some (.ok 6) := by
  obtain ⟨-, h2, -, -, h5⟩ :=
    c9_loaded_ready_observation (D := Nat) (V := Nat)
      ⟨0, some 1, none, .loading⟩ 1 (some 5) 2 0 [] []
      [((0, 1), AssetState.loaded (some 5) 2 0 [])] 7 rfl (Or.inl rfl) rfl
  exact ⟨h2, (h5 5 (fun d => .ok (d + 1)) rfl).1⟩

end Loader

namespace BuildProtocol

open Loader (Error)

/-- The published terminal entry is never `Loaded`. -/
theorem expectedEntry_ne_loaded {D V : Type} (bf : D → Except Error V)
    (d : D) : expectedEntry bf d ≠ .loaded := by
  unfold expectedEntry
  cases bf d <;> simp

/-- If the published entry is `Ready a`, the protocol outcome is `got a`. -/
theorem expected_got_of_ready {D V : Type} (bf : D → Except Error V) (d : D)
    (a : V) (h : expectedEntry bf d = .ready a) :
    expectedOutcome bf d = .got a := by
  unfold expectedEntry at h
  unfold expectedOutcome
  cases hbf : bf d <;> rw [hbf] at h <;> simp_all

/-- If the published entry is `Error e`, the protocol outcome is
`failed e`. -/
theorem expected_failed_of_error {D V : Type} (bf : D → Except Error V)
    (d : D) (e : Error) (h : expectedEntry bf d = .error e) :
    expectedOutcome bf d = .failed e := by
  unfold expectedEntry at h
  unfold expectedOutcome
  cases hbf : bf d <;> rw [hbf] at h <;> simp_all

/-- A successful build determines the published entry and outcome. -/
theorem expected_of_ok {D V : Type} (bf : D → Except Error V) (d : D)
    (a : V) (h : bf d = .ok a) :
    expectedEntry bf d = .ready a ∧ expectedOutcome bf d = .got a := by
  unfold expectedEntry expectedOutcome
  rw [h]
  exact ⟨rfl, rfl⟩

/-- A failed build determines the published entry and outcome. -/
theorem expected_of_error {D V : Type} (bf : D → Except Error V) (d : D)
    (e : Error) (h : bf d = .error e) :
    expectedEntry bf d = .error e ∧ expectedOutcome bf d = .failed e := by
  unfold expectedEntry expectedOutcome
  rw [h]
  exact ⟨rfl, rfl⟩

/-- The invariant holds initially. -/
theorem inv_init {D V : Type} (bf : D → Except Error V) (d : D) :
    Inv bf d (init D V d) := by
  refine ⟨by simp [init], ?_, ?_, ?_, ?_, ?_, ?_⟩
  · intro i o h
    simp [init] at h
  · intro i o h
    simp [init] at h
  · intro x hx
    simp only [init, Option.some.injEq] at hx
    exact ⟨hx.symm, rfl, rfl, rfl, fun i => Or.inl rfl⟩
  · intro hc
    simp [init] at hc
  · intro i r h
    simp [init] at h
  · intro _ i r h
    simp [init] at h

/-- The invariant is preserved by every interleaving step. -/
theorem inv_step {D V : Type} (bf : D → Except Error V) (d : D)
    (s s' : Sys D V) (hstep : Step bf s s') (hinv : Inv bf d s) :
    Inv bf d s' := by
  obtain ⟨hb, hA, hB, hC, hD, hH, hG⟩ := hinv
  cases hstep with
  | startReady i a hp he =>
    have hcell : s.cell = none := by
      cases hx : s.cell with
      | none => rfl
      | some x =>
        have := (hC x hx).2.2.1
        rw [he] at this
        exact absurd this (by simp)
    have hE : s.entry = expectedEntry bf d := by
      rcases hD hcell with ⟨hl, -⟩ | ⟨hE, -⟩
      · rw [he] at hl; exact absurd hl (by simp)
      · exact hE
    have hout : expectedOutcome bf d = .got a :=
      expected_got_of_ready bf d a (hE ▸ he)
    obtain ⟨-, hnoRB⟩ := (hD hcell).resolve_left
      (by rw [he]; rintro ⟨hl, -⟩; exact absurd hl (by simp))
    refine ⟨hb, ?_, ?_, ?_, ?_, ?_, ?_⟩
    · intro j o hj
      by_cases hji : j = i
      · subst hji; simp [setPhase] at hj
      · simp [setPhase, hji] at hj; exact hA j o hj
    · intro j o hj
      by_cases hji : j = i
      · subst hji; simp [setPhase] at hj
      · simp [setPhase, hji] at hj; exact hB j o hj
    · intro x hx
      simp only [setPhase] at hx
      rw [hcell] at hx
      cases hx
    · intro _
      right
      refine ⟨hE ▸ rfl, ?_⟩
      intro j o
      by_cases hji : j = i
      · subst hji; simp [setPhase]
      · simp [setPhase, hji]; exact hnoRB j o
    · intro j r hj
      by_cases hji : j = i
      · subst hji
        simp [setPhase] at hj
        rw [← hj, hout]
      · simp [setPhase, hji] at hj; exact hH j r hj
    · intro hload
      simp only [setPhase] at hload
      rw [he] at hload
      exact absurd hload (by simp)
  | startError i e hp he =>
    have hcell : s.cell = none := by
      cases hx : s.cell with
      | none => rfl
      | some x =>
        have := (hC x hx).2.2.1
        rw [he] at this
        exact absurd this (by simp)
    have hE : s.entry = expectedEntry bf d := by
      rcases hD hcell with ⟨hl, -⟩ | ⟨hE, -⟩
      · rw [he] at hl; exact absurd hl (by simp)
      · exact hE
    have hout : expectedOutcome bf d = .failed e :=
      expected_failed_of_error bf d e (hE ▸ he)
    obtain ⟨-, hnoRB⟩ := (hD hcell).resolve_left
      (by rw [he]; rintro ⟨hl, -⟩; exact absurd hl (by simp))
    refine ⟨hb, ?_, ?_, ?_, ?_, ?_, ?_⟩
    · intro j o hj
      by_cases hji : j = i
      · subst hji; simp [setPhase] at hj
      · simp [setPhase, hji] at hj; exact hA j o hj
    · intro j o hj
      by_cases hji : j = i
      · subst hji; simp [setPhase] at hj
      · simp [setPhase, hji] at hj; exact hB j o hj
    · intro x hx
      simp only [setPhase] at hx
      rw [hcell] at hx
      cases hx
    · intro _
      right
      refine ⟨hE ▸ rfl, ?_⟩
      intro j o
      by_cases hji : j = i
      · subst hji; simp [setPhase]
      · simp [setPhase, hji]; exact hnoRB j o
    · intro j r hj
      by_cases hji : j = i
      · subst hji
        simp [setPhase] at hj
        rw [← hj, hout]
      · simp [setPhase, hji] at hj; exact hH j r hj
    · intro hload
      simp only [setPhase] at hload
      rw [he] at hload
      exact absurd hload (by simp)
  | startLoaded i hp he =>
    refine ⟨hb, ?_, ?_, ?_, ?_, ?_, ?_⟩
    · intro j o hj
      by_cases hji : j = i
      · subst hji; simp [setPhase] at hj
      · simp [setPhase, hji] at hj; exact hA j o hj
    · intro j o hj
      by_cases hji : j = i
      · subst hji; simp [setPhase] at hj
      · simp [setPhase, hji] at hj; exact hB j o hj
    · intro x hx
      simp only [setPhase] at hx
      obtain ⟨hxd, hb0, hent, hlock, hph⟩ := hC x hx
      refine ⟨hxd, hb0, hent, hlock, ?_⟩
      intro j
      by_cases hji : j = i
      · subst hji; right; simp [setPhase]
      · simp only [setPhase, hji, if_neg hji]; exact hph j
    · intro hc
      simp only [setPhase] at hc
      rcases hD hc with ⟨hl, k, hk⟩ | ⟨hE, hno⟩
      · left
        refine ⟨hl, k, ?_⟩
        have hki : k ≠ i := by
          intro hki; subst hki; rw [hp] at hk; cases hk
        simp [setPhase, hki, hk]
      · right
        refine ⟨hE, ?_⟩
        intro j o
        by_cases hji : j = i
        · subst hji; simp [setPhase]
        · simp [setPhase, hji]; exact hno j o
    · intro j r hj
      by_cases hji : j = i
      · subst hji; simp [setPhase] at hj
      · simp [setPhase, hji] at hj; exact hH j r hj
    · intro hload j r
      by_cases hji : j = i
      · subst hji; simp [setPhase]
      · simp only [setPhase] at hload ⊢
        simp [hji]
        exact hG hload j r
  | takeCell i hp hlock =>
    cases hx : s.cell with
    | some x =>
      obtain ⟨hxd, hb0, hent, -, hph⟩ := hC x hx
      subst hxd
      refine ⟨?_, ?_, ?_, ?_, ?_, ?_, ?_⟩
      · simp [hx, hb0]
      · intro j o hj
        by_cases hji : j = i
        · subst hji; rfl
        · simp only [hji, if_neg hji] at hj
          rcases hph j with hj' | hj' <;> rw [hj'] at hj <;> cases hj
      · intro j o hj
        by_cases hji : j = i
        · subst hji
          simp only [if_pos rfl, hx, Option.map_some] at hj
          cases hj
          rfl
        · simp only [hji, if_neg hji] at hj
          rcases hph j with hj' | hj' <;> rw [hj'] at hj <;> cases hj
      · intro y hy
        cases hy
      · intro _
        left
        refine ⟨hent, i, ?_⟩
        simp [hx]
      · intro j r hj
        by_cases hji : j = i
        · subst hji; simp at hj
        · simp only [hji, if_neg hji] at hj
          rcases hph j with hj' | hj' <;> rw [hj'] at hj <;> cases hj
      · intro _ j r
        by_cases hji : j = i
        · subst hji; simp
        · simp only [hji, if_neg hji]
          intro hj
          rcases hph j with hj' | hj' <;> rw [hj'] at hj <;> cases hj
    | none =>
      have hright := (hD hx).resolve_left ?_
      case takeCell.none.refine_1 =>
        rintro ⟨-, k, hk⟩
        have := hA k _ hk
        rw [hlock] at this
        cases this
      obtain ⟨hE, hno⟩ := hright
      refine ⟨?_, ?_, ?_, ?_, ?_, ?_, ?_⟩
      · simp [hx, hb]
      · intro j o hj
        by_cases hji : j = i
        · subst hji; rfl
        · simp only [hji, if_neg hji] at hj
          have := hA j _ hj
          rw [hlock] at this
          cases this
      · intro j o hj
        by_cases hji : j = i
        · subst hji
          simp only [if_pos rfl, hx, Option.map_none] at hj
          cases hj
        · simp only [hji, if_neg hji] at hj
          exact absurd hj (hno j o)
      · intro y hy
        cases hy
      · intro _
        right
        refine ⟨hE, ?_⟩
        intro j o
        by_cases hji : j = i
        · subst hji; simp [hx]
        · simp only [hji, if_neg hji]; exact hno j o
      · intro j r hj
        by_cases hji : j = i
        · subst hji; simp at hj
        · simp only [hji, if_neg hji] at hj; exact hH j r hj
      · intro hload
        have hload2 : s.entry = EntrySt.loaded := hload
        rw [hE] at hload2
        exact absurd hload2 (expectedEntry_ne_loaded bf d)
  | finishReady i o a hp he =>
    have hcell : s.cell = none := by
      cases hx : s.cell with
      | none => rfl
      | some x =>
        rcases (hC x hx).2.2.2.2 i with h' | h' <;> rw [h'] at hp <;> cases hp
    have hnotleft : ¬(s.entry = EntrySt.loaded ∧
        ∃ k, s.phases k = Phase.ranBuild (some (bf d))) := by
      rintro ⟨hl, -⟩
      rw [he] at hl
      exact absurd hl (by simp)
    obtain ⟨hE, hno⟩ := (hD hcell).resolve_left hnotleft
    have hout : expectedOutcome bf d = .got a :=
      expected_got_of_ready bf d a (hE ▸ he)
    refine ⟨hb, ?_, ?_, ?_, ?_, ?_, ?_⟩
    · intro j o' hj
      simp only [setPhase] at hj
      by_cases hji : j = i
      · subst hji; simp at hj
      · simp only [hji, if_neg hji] at hj
        have h1 := hA j _ hj
        have h2 := hA i _ hp
        rw [h2] at h1
        cases h1
        exact absurd rfl hji
    · intro j o' hj
      simp only [setPhase] at hj
      by_cases hji : j = i
      · subst hji; simp at hj
      · simp only [hji, if_neg hji] at hj
        exact hB j o' hj
    · intro x hx
      simp only [setPhase] at hx
      rw [hcell] at hx
      cases hx
    · intro _
      right
      refine ⟨hE ▸ rfl, ?_⟩
      intro j o'
      simp only [setPhase]
      by_cases hji : j = i
      · subst hji; simp
      · simp [hji]; exact hno j o'
    · intro j r hj
      simp only [setPhase] at hj
      by_cases hji : j = i
      · subst hji
        simp at hj
        rw [← hj, hout]
      · simp only [hji, if_neg hji] at hj
        exact hH j r hj
    · intro hload
      simp only [setPhase] at hload
      rw [he] at hload
      exact absurd hload (by simp)
  | finishError i o e hp he =>
    have hcell : s.cell = none := by
      cases hx : s.cell with
      | none => rfl
      | some x =>
        rcases (hC x hx).2.2.2.2 i with h' | h' <;> rw [h'] at hp <;> cases hp
    have hnotleft : ¬(s.entry = EntrySt.loaded ∧
        ∃ k, s.phases k = Phase.ranBuild (some (bf d))) := by
      rintro ⟨hl, -⟩
      rw [he] at hl
      exact absurd hl (by simp)
    obtain ⟨hE, hno⟩ := (hD hcell).resolve_left hnotleft
    have hout : expectedOutcome bf d = .failed e :=
      expected_failed_of_error bf d e (hE ▸ he)
    refine ⟨hb, ?_, ?_, ?_, ?_, ?_, ?_⟩
    · intro j o' hj
      simp only [setPhase] at hj
      by_cases hji : j = i
      · subst hji; simp at hj
      · simp only [hji, if_neg hji] at hj
        have h1 := hA j _ hj
        have h2 := hA i _ hp
        rw [h2] at h1
        cases h1
        exact absurd rfl hji
    · intro j o' hj
      simp only [setPhase] at hj
      by_cases hji : j = i
      · subst hji; simp at hj
      · simp only [hji, if_neg hji] at hj
        exact hB j o' hj
    · intro x hx
      simp only [setPhase] at hx
      rw [hcell] at hx
      cases hx
    · intro _
      right
      refine ⟨hE ▸ rfl, ?_⟩
      intro j o'
      simp only [setPhase]
      by_cases hji : j = i
      · subst hji; simp
      · simp [hji]; exact hno j o'
    · intro j r hj
      simp only [setPhase] at hj
      by_cases hji : j = i
      · subst hji
        simp at hj
        rw [← hj, hout]
      · simp only [hji, if_neg hji] at hj
        exact hH j r hj
    · intro hload
      simp only [setPhase] at hload
      rw [he] at hload
      exact absurd hload (by simp)
  | finishLoadedOk i a hp he =>
    have hbf : bf d = .ok a := (hB i _ hp).symm
    obtain ⟨hEe, hout⟩ := expected_of_ok bf d a hbf
    have hcell : s.cell = none := by
      cases hx : s.cell with
      | none => rfl
      | some x =>
        rcases (hC x hx).2.2.2.2 i with h' | h' <;> rw [h'] at hp <;> cases hp
    refine ⟨hb, ?_, ?_, ?_, ?_, ?_, ?_⟩
    · intro j o' hj
      simp only [setPhase] at hj
      by_cases hji : j = i
      · subst hji; simp at hj
      · simp only [hji, if_neg hji] at hj
        have h1 := hA j _ hj
        have h2 := hA i _ hp
        rw [h2] at h1
        cases h1
        exact absurd rfl hji
    · intro j o' hj
      simp only [setPhase] at hj
      by_cases hji : j = i
      · subst hji; simp at hj
      · simp only [hji, if_neg hji] at hj
        exact hB j o' hj
    · intro x hx
      simp only [setPhase] at hx
      rw [hcell] at hx
      cases hx
    · intro _
      right
      refine ⟨hEe.symm, ?_⟩
      intro j o'
      simp only [setPhase]
      by_cases hji : j = i
      · subst hji; simp
      · simp only [hji, if_neg hji]
        intro hj
        have h1 := hA j _ hj
        have h2 := hA i _ hp
        rw [h2] at h1
        cases h1
        exact absurd rfl hji
    · intro j r hj
      simp only [setPhase] at hj
      by_cases hji : j = i
      · subst hji
        simp at hj
        rw [← hj, hout]
      · simp only [hji, if_neg hji] at hj
        exact hH j r hj
    · intro hload
      simp only [setPhase] at hload
      exact absurd hload (by simp)
  | finishLoadedErr i e hp he =>
    have hbf : bf d = .error e := (hB i _ hp).symm
    obtain ⟨hEe, hout⟩ := expected_of_error bf d e hbf
    have hcell : s.cell = none := by
      cases hx : s.cell with
      | none => rfl
      | some x =>
        rcases (hC x hx).2.2.2.2 i with h' | h' <;> rw [h'] at hp <;> cases hp
    refine ⟨hb, ?_, ?_, ?_, ?_, ?_, ?_⟩
    · intro j o' hj
      simp only [setPhase] at hj
      by_cases hji : j = i
      · subst hji; simp at hj
      · simp only [hji, if_neg hji] at hj
        have h1 := hA j _ hj
        have h2 := hA i _ hp
        rw [h2] at h1
        cases h1
        exact absurd rfl hji
    · intro j o' hj
      simp only [setPhase] at hj
      by_cases hji : j = i
      · subst hji; simp at hj
      · simp only [hji, if_neg hji] at hj
        exact hB j o' hj
    · intro x hx
      simp only [setPhase] at hx
      rw [hcell] at hx
      cases hx
    · intro _
      right
      refine ⟨hEe.symm, ?_⟩
      intro j o'
      simp only [setPhase]
      by_cases hji : j = i
      · subst hji; simp
      · simp only [hji, if_neg hji]
        intro hj
        have h1 := hA j _ hj
        have h2 := hA i _ hp
        rw [h2] at h1
        cases h1
        exact absurd rfl hji
    · intro j r hj
      simp only [setPhase] at hj
      by_cases hji : j = i
      · subst hji
        simp at hj
        rw [← hj, hout]
      · simp only [hji, if_neg hji] at hj
        exact hH j r hj
    · intro hload
      simp only [setPhase] at hload
      exact absurd hload (by simp)

/-- Every reachable state satisfies the invariant. -/
theorem inv_reachable {D V : Type} (bf : D → Except Error V) (d : D)
    (s : Sys D V) (h : Reachable bf d s) : Inv bf d s := by
  induction h with
  | refl => exact inv_init bf d
  | tail _ hstep ih => exact inv_step bf d _ _ hstep ih

/-- C6: in every interleaving of concurrently racing `Handle::build` calls
on one id-entry that starts `Loaded` with a full decode cell, the decode
cell yields its content at most once (the asset's build runs at most once);
the entry only ever moves from `Loaded` to the terminal state the first
build determined (`Ready` on success, `Error` on failure); and every build
call that returns — first, later, or racing — returns that same memoised
outcome. -/
theorem c6_decoded_cell_single_build {D V : Type}
    (bf : D → Except Error V) (d : D) (s : Sys D V)
    (h : Reachable bf d s) :
    s.builds ≤ 1 ∧
    (s.entry = .loaded ∨ s.entry = expectedEntry bf d) ∧
    (∀ i r, s.phases i = .done r → r = expectedOutcome bf d) := by
  obtain ⟨hb, -, -, hC, hD, hH, -⟩ := inv_reachable bf d s h
  refine ⟨hb, ?_, hH⟩
  cases hx : s.cell with
  | some x => exact Or.inl (hC x hx).2.2.1
  | none =>
    rcases hD hx with ⟨hl, -⟩ | ⟨hE, -⟩
    · exact Or.inl hl
    · exact Or.inr hE

/-- C6 witness: the single-build theorem at the initial state of a concrete
protocol instance (decoded value 3, build doubling it). -/
theorem c6_decoded_cell_single_build_witness :
    (init Nat Nat 3).builds ≤ 1 ∧
    ((init Nat Nat 3).entry = .loaded ∨
      (init Nat Nat 3).entry = expectedEntry (fun d => .ok (2 * d)) 3) ∧
    (∀ i r, (init Nat Nat 3).phases i = .done r →
      r = expectedOutcome (fun d => .ok (2 * d)) 3) :=
  c6_decoded_cell_single_build (fun d => .ok (2 * d)) 3 _
    Relation.ReflTransGen.refl

end BuildProtocol

end Argosy
